import Mathlib

/-!
# go-bitbucket: request execution, auto-pagination and typed decoding

A shallow embedding of `client.go` (`executeRaw`, `execute`, `authenticateRequest`,
`doRequest`, `doRawRequest`) and of the decoders of `repository.go`.

Conventions of the embedding

* A Go `interface{}` holding a decoded JSON document is a value of `Any`; `Any.nil` is both the
  nil interface and JSON `null` (`encoding/json` decodes `null` to nil).
* A Go `(result, error)` pair is a pair whose second component is `Option GoError` (`none` is a
  nil error).  A function that can hit a failing type assertion returns an `Outcome`, whose
  `panic` constructor is the run-time panic.
* The outside world (the Go standard library, `oauth2`, `mapstructure`, the HTTP server) is not
  part of the repository: it is the parameter `Env` (resp. `Mapstructure`).  The general theorems
  quantify over every `Env`; `goEnv` is a concrete, executable instance used to evaluate the code
  on explicit inputs.
* Calls with an effect on the connection are recorded in a trace of `Event`s, in program order.
* `execute` is recursive with a depth decided by the server, so the embedding carries a fuel
  argument; `none` means that the fuel ran out before the Go call returned.
-/

set_option autoImplicit false

namespace Bitbucket

/-! ## Data model -/

/-- A byte string (`[]byte`), kept as text. -/
abbrev Bytes := String

/-- Go `interface{}` as produced by `json.Unmarshal` (`nil`, `bool`, `float64`, `string`,
`[]interface{}`, `map[string]interface{}`), plus a `[]byte` payload (the raw-body fallback of
`doRequest`, the input of `decodeRepositoryBranches`).  The payload of `float64` is kept as an
integer: no claim depends on fractional numbers. -/
inductive Any where
  | nil : Any
  | bool (b : Bool) : Any
  | float64 (x : Int) : Any
  | string (s : String) : Any
  | slice (xs : List Any) : Any
  | map (m : List (String × Any)) : Any
  | bytes (b : Option Bytes) : Any

/-- Go `map[string]interface{}`: an association list read by first match. -/
abbrev StrMap := List (String × Any)

/-- Index expression `m[k]`: the value stored under `k`, nil when the key is absent. -/
def StrMap.get (m : StrMap) (k : String) : Any :=
  match m.lookup k with
  | some v => v
  | none => Any.nil

/-- Builtin `delete(m, k)`. -/
def StrMap.delete (m : StrMap) (k : String) : StrMap :=
  m.filter (fun kv => !(kv.1 == k))

/-- Assignment `m[k] = v`. -/
def StrMap.set (m : StrMap) (k : String) (v : Any) : StrMap :=
  (k, v) :: StrMap.delete m k

/-- Whether `k` is a key of the map. -/
def StrMap.hasKey (m : StrMap) (k : String) : Bool :=
  (m.lookup k).isSome

/-- Comparison `x == nil` of an interface value. -/
def Any.isNil : Any → Bool
  | Any.nil => true
  | _ => false

/-- Comparison `x == "literal"` of an interface value with a string constant. -/
def Any.eqString : Any → String → Bool
  | Any.string s, t => s == t
  | _, _ => false

/-- Dynamic type name as printed by the verb `%T`. -/
def Any.typeName : Any → String
  | Any.nil => "<nil>"
  | Any.bool _ => "bool"
  | Any.float64 _ => "float64"
  | Any.string _ => "string"
  | Any.slice _ => "[]interface \x7b\x7d"
  | Any.map _ => "map[string]interface \x7b\x7d"
  | Any.bytes _ => "[]uint8"

/-- Go `error` values.  `text` is an error made by `fmt.Errorf` or returned by a library;
`domain` is the structured error built from an error envelope. -/
inductive GoError where
  | text (msg : String) : GoError
  | domain (fields : StrMap) : GoError

/-- Result of a Go function that may panic: either it returns its `(result, error)` pair, or a
type assertion fails at run time. -/
inductive Outcome (α : Type) where
  | ret (result : α) (err : Option GoError) : Outcome α
  | panic (msg : String) : Outcome α

/-- Headers of a request (`http.Header`), one value per key. -/
abbrev Header := List (String × String)

/-- Method `Header.Set`: replaces whatever was stored under the key. -/
def Header.Set (h : Header) (k v : String) : Header :=
  (k, v) :: h.filter (fun kv => !(kv.1 == k))

/-- Method `Header.Get`, `none` when the key is absent. -/
def Header.Get (h : Header) (k : String) : Option String :=
  h.lookup k

/-- What `http.NewRequest(method, urlStr, body)` builds. -/
structure Request where
  Method : String
  URL : String
  Header : Header
  Body : String

/-- A response body stream: the bytes `ioutil.ReadAll` delivers and the read error, if any. -/
structure BodyStream where
  data : Bytes
  readErr : Option GoError

/-- The fields of `http.Response` that the client reads. -/
structure Response where
  StatusCode : Nat
  Status : String
  Body : Option BodyStream

/-- Effects on the connection, in program order. -/
inductive Event where
  | send (req : Request) : Event
  | readAll : Event
  | close : Event

/-- The fields of `url.URL` kept by the embedding. -/
structure URL where
  Scheme : String
  Host : String
  Path : String
  RawQuery : String
  Fragment : String

/-- Type `url.Values`: `map[string][]string`, an association list read by first match. -/
abbrev Values := List (String × List String)

/-- Method `Values.Set`: `v[key] = []string{value}`. -/
def Values.Set (v : Values) (key value : String) : Values :=
  if (v.lookup key).isSome then
    v.map (fun kv => if kv.1 == key then (kv.1, [value]) else kv)
  else
    v ++ [(key, [value])]

/-- Index expression `v[key]`: the values stored under `key`, empty when absent. -/
def Values.get (v : Values) (key : String) : List String :=
  match v.lookup key with
  | some l => l
  | none => []

/-- The part of `oauth2.Token` that the client uses: the result of `Valid()` and the
`Authorization` header that `SetAuthHeader` writes. -/
structure Token where
  Valid : Bool
  AuthHeader : String

/-- Struct `auth` of client.go. -/
structure auth where
  appID : String
  secret : String
  user : String
  password : String
  token : Token
  bearerToken : String

/-- Struct `Client` of client.go (the endpoint fields hold only a back pointer; the HTTP client is
the `Do` field of `Env`).  `Pagelen` is a `uint64`. -/
structure Client where
  Auth : auth
  Pagelen : Nat

/-- Constant `DEFAULT_PAGE_LENGTH` (client.go:25). -/
def DEFAULT_PAGE_LENGTH : Nat := 100

/-- The library functions and the server that client.go calls. -/
structure Env where
  /-- Function `url.Parse`. -/
  Parse : String → Except GoError URL
  /-- Method `URL.Query()`, as a function of the raw query. -/
  ParseQuery : String → Values
  /-- Method `Values.Encode()`. -/
  Encode : Values → String
  /-- Method `URL.String()`. -/
  URLString : URL → String
  /-- The error of `http.NewRequest(method, urlStr, body)`, if it rejects its arguments. -/
  NewRequestErr : String → String → Option GoError
  /-- Method `HttpClient.Do`: the server's answer or a network error. -/
  Do : Request → Except GoError Response
  /-- Function `json.Unmarshal` into an `interface{}` target (`none` is a nil byte slice). -/
  Unmarshal : Option Bytes → Except GoError Any
  /-- Message of the error made by `fmt.Errorf(format)` called without operands. -/
  Errorf : String → String
  /-- Standard base64 encoding, as used by `Request.SetBasicAuth`. -/
  Base64 : String → String

/-! ## strings, strconv -/

/-- Whether the second list is an initial segment of the first. -/
def startsWith : List Char → List Char → Bool
  | _, [] => true
  | [], _ :: _ => false
  | c :: cs, p :: ps => c == p && startsWith cs ps

/-- Whether the second list occurs in the first as a contiguous block. -/
def containsChars : List Char → List Char → Bool
  | [], p => startsWith [] p
  | c :: cs, p => startsWith (c :: cs) p || containsChars cs p

/-- Function `strings.Contains`. -/
def strings_Contains (s substr : String) : Bool :=
  containsChars s.data substr.data

/-- Function `strconv.FormatUint(n, 10)`. -/
def strconv_FormatUint (n : Nat) : String :=
  Nat.repr n

/-! ## client.go -/

/-- Method `Request.SetBasicAuth`. -/
def SetBasicAuth (env : Env) (req : Request) (username password : String) : Request :=
  let value := "Basic " ++ env.Base64 (username ++ ":" ++ password)
  { req with Header := Header.Set req.Header "Authorization" value }

/-- Method `Client.authenticateRequest` (client.go:279-290). -/
def authenticateRequest (env : Env) (c : Client) (req : Request) : Request :=
  let req1 :=
    if c.Auth.bearerToken ≠ "" then
      { req with Header := Header.Set req.Header "Authorization" ("Bearer " ++ c.Auth.bearerToken) }
    else req
  if c.Auth.user ≠ "" ∧ c.Auth.password ≠ "" then
    SetBasicAuth env req1 c.Auth.user c.Auth.password
  else if c.Auth.token.Valid then
    { req1 with Header := Header.Set req1.Header "Authorization" c.Auth.token.AuthHeader }
  else req1

/-- Method `Client.doRawRequest` (client.go:308-330).  The deferred `resp.Body.Close()` runs when
the function returns, on every path on which the body is not nil. -/
def doRawRequest (env : Env) (req : Request) (emptyResponse : Bool) :
    (Option Bytes × Option GoError) × List Event :=
  match env.Do req with
  | Except.error err => ((none, some err), [Event.send req])
  | Except.ok resp =>
    let deferred : List Event := if resp.Body.isSome then [Event.close] else []
    if resp.StatusCode ≠ 200 ∧ resp.StatusCode ≠ 201 then
      ((none, some (GoError.text (env.Errorf resp.Status))), Event.send req :: deferred)
    else if emptyResponse then
      ((none, none), Event.send req :: deferred)
    else
      match resp.Body with
      | none => ((none, some (GoError.text "response body is nil")), Event.send req :: deferred)
      | some body => ((some body.data, body.readErr), Event.send req :: Event.readAll :: deferred)

/-- Method `Client.doRequest` (client.go:292-306). -/
def doRequest (env : Env) (req : Request) (emptyResponse : Bool) :
    (Any × Option GoError) × List Event :=
  match doRawRequest env req emptyResponse with
  | ((_, some err), tr) => ((Any.nil, some err), tr)
  | ((resBodyBytes, none), tr) =>
    match env.Unmarshal resBodyBytes with
    | Except.error err => ((Any.bytes resBodyBytes, some err), tr)
    | Except.ok result => ((result, none), tr)

/-- The rewriting of client.go:151-154 and 179-182: the URL with `pagelen` set in its query to
the decimal rendering of the page size, the query re-encoded. -/
def setPagelen (env : Env) (urlObj : URL) (pagelen : Nat) : String :=
  let q := env.ParseQuery urlObj.RawQuery
  let q := Values.Set q "pagelen" (strconv_FormatUint pagelen)
  let urlObj := { urlObj with RawQuery := env.Encode q }
  env.URLString urlObj

/-- The request construction shared by `executeRaw` (client.go:156-166) and `execute`
(client.go:186-196): `http.NewRequest`, the JSON content type when there is a body, then
`authenticateRequest`. -/
def newAuthenticatedRequest (env : Env) (c : Client) (method urlStr text : String) :
    Except GoError Request :=
  match env.NewRequestErr method urlStr with
  | some err => Except.error err
  | none =>
    let req : Request := { Method := method, URL := urlStr, Header := [], Body := text }
    let req := if text ≠ "" then
        { req with Header := Header.Set req.Header "Content-Type" "application/json" }
      else req
    Except.ok (authenticateRequest env c req)

/-- The URL that `executeRaw` requests (client.go:144-155). -/
def executeRawURL (env : Env) (c : Client) (urlStr : String) : Except GoError String :=
  if strings_Contains urlStr "/repositories/" then
    match env.Parse urlStr with
    | Except.error err => Except.error err
    | Except.ok urlObj => Except.ok (setPagelen env urlObj c.Pagelen)
  else Except.ok urlStr

/-- The request that `executeRaw` builds (client.go:144-166). -/
def executeRawRequest (env : Env) (c : Client) (method urlStr text : String) :
    Except GoError Request :=
  match executeRawURL env c urlStr with
  | Except.error err => Except.error err
  | Except.ok urlStr => newAuthenticatedRequest env c method urlStr text

/-- Method `Client.executeRaw` (client.go:143-168). -/
def executeRaw (env : Env) (c : Client) (method urlStr text : String) :
    (Option Bytes × Option GoError) × List Event :=
  match executeRawRequest env c method urlStr text with
  | Except.error err => ((none, some err), [])
  | Except.ok req => doRawRequest env req false

/-- The URL that `execute` requests (client.go:171-184). -/
def executeURL (env : Env) (c : Client) (urlStr : String) : Except GoError String :=
  if strings_Contains urlStr "/repositories/" then
    if c.Pagelen ≠ DEFAULT_PAGE_LENGTH then
      match env.Parse urlStr with
      | Except.error err => Except.error err
      | Except.ok urlObj => Except.ok (setPagelen env urlObj c.Pagelen)
    else Except.ok urlStr
  else Except.ok urlStr

/-- The request that `execute` builds (client.go:171-196). -/
def executeRequest (env : Env) (c : Client) (method urlStr text : String) :
    Except GoError Request :=
  match executeURL env c urlStr with
  | Except.error err => Except.error err
  | Except.ok urlStr => newAuthenticatedRequest env c method urlStr text

/-- The first half of `execute` (client.go:171-200): build the request, send it, decode the
answer; any error is returned with a nil result. -/
def executePage (env : Env) (c : Client) (method urlStr text : String) :
    (Any × Option GoError) × List Event :=
  match executeRequest env c method urlStr text with
  | Except.error err => ((Any.nil, some err), [])
  | Except.ok req =>
    match doRequest env req false with
    | ((_, some err), tr) => ((Any.nil, some err), tr)
    | ((result, none), tr) => ((result, none), tr)

/-- Method `Client.execute` (client.go:170-240).  The guard `valuesSlice != nil` of line 211
always holds for a decoded JSON array (`encoding/json` allocates the slice, also when empty), so
the embedding has no branch for it. -/
def execute (env : Env) (c : Client) (method : String) :
    Nat → String → String → Option (Outcome Any × List Event)
  | 0, _, _ => none
  | fuel + 1, urlStr, text =>
    match executePage env c method urlStr text with
    | ((_, some err), tr) => some (Outcome.ret Any.nil (some err), tr)
    | ((result, none), tr) =>
      match result with
      | Any.map resultMap =>
        let nextIn := StrMap.get resultMap "next"
        let valuesIn := StrMap.get resultMap "values"
        if nextIn.isNil || valuesIn.isNil then some (Outcome.ret result none, tr) else
        match nextIn with
        | Any.string nextUrl =>
          if nextUrl = "" then some (Outcome.ret result none, tr) else
          match valuesIn with
          | Any.slice valuesSlice =>
            match execute env c method fuel nextUrl text with
            | none => none
            | some (Outcome.panic msg, tr2) => some (Outcome.panic msg, tr ++ tr2)
            | some (Outcome.ret _ (some err), tr2) =>
              some (Outcome.ret Any.nil (some err), tr ++ tr2)
            | some (Outcome.ret nextResult none, tr2) =>
              match nextResult with
              | Any.map nextResultMap =>
                match StrMap.get nextResultMap "values" with
                | Any.nil =>
                  some (Outcome.ret Any.nil
                    (some (GoError.text "next page result has no values")), tr ++ tr2)
                | Any.slice nextValuesSlice =>
                  let valuesSlice := valuesSlice ++ nextValuesSlice
                  let resultMap := StrMap.set resultMap "values" (Any.slice valuesSlice)
                  let resultMap := StrMap.delete resultMap "page"
                  let resultMap := StrMap.delete resultMap "pagelen"
                  let resultMap := StrMap.delete resultMap "size"
                  some (Outcome.ret (Any.map resultMap) none, tr ++ tr2)
                | _ =>
                  some (Outcome.ret Any.nil
                    (some (GoError.text "next page result 'values' is not slice")), tr ++ tr2)
              | _ =>
                some (Outcome.ret Any.nil
                  (some (GoError.text
                    ("next page result is not map, it's " ++ nextResult.typeName))), tr ++ tr2)
          | _ =>
            some (Outcome.panic
              ("interface conversion: interface \x7b\x7d is " ++ valuesIn.typeName ++
                ", not []interface \x7b\x7d"), tr)
        | _ =>
          some (Outcome.panic
            ("interface conversion: interface \x7b\x7d is " ++ nextIn.typeName ++
              ", not string"), tr)
      | _ => some (Outcome.ret result none, tr)

/-! ## repository.go -/

/-- Struct `Project`. -/
structure Project where
  Key : String
  Name : String

/-- Struct `Repository`, without the back pointer `c` to the client. -/
structure Repository where
  Project : Project
  Slug : String
  Full_name : String
  Description : String
  ForkPolicy : String
  Type_ : String
  Owner : StrMap
  Links : StrMap

/-- Struct `RepositoryFile`. -/
structure RepositoryFile where
  Mimetype : String
  Links : StrMap
  Path : String
  Commit : StrMap
  Attributes : List String
  Type_ : String
  Size : Int

/-- Struct `RepositoryBranch`. -/
structure RepositoryBranch where
  Type_ : String
  Name : String
  Default_Merge_Strategy : String
  Merge_Strategies : List String
  Links : StrMap
  Target : StrMap
  Heads : List StrMap

/-- Struct `RepositoryBranches`. -/
structure RepositoryBranches where
  Page : Int
  Pagelen : Int
  Size : Int
  Next : String
  Branches : List RepositoryBranch

/-- Struct `Pipeline`. -/
structure Pipeline where
  Type_ : String
  Enabled : Bool
  Repository : Repository

/-- Struct `PipelineVariable`. -/
structure PipelineVariable where
  Type_ : String
  Uuid : String
  Key : String
  Value : String
  Secured : Bool

/-- Struct `PipelineKeyPair`. -/
structure PipelineKeyPair where
  Type_ : String
  Uuid : String
  PublicKey : String
  PrivateKey : String

/-- The library `mapstructure`: what `mapstructure.Decode` does with one input value for each
struct target of repository.go, and how it joins the errors of the elements of a slice. -/
structure Mapstructure where
  toRepository : Any → Except GoError Repository
  toRepositoryFile : Any → Except GoError RepositoryFile
  toRepositoryBranch : Any → Except GoError RepositoryBranch
  toPipeline : Any → Except GoError Pipeline
  toPipelineVariable : Any → Except GoError PipelineVariable
  toPipelineKeyPair : Any → Except GoError PipelineKeyPair
  joinErrors : List GoError → GoError

/-- The errors among the results of decoding the elements of a slice. -/
def decodeErrors {α : Type} : List (Except GoError α) → List GoError
  | [] => []
  | Except.error e :: rest => e :: decodeErrors rest
  | Except.ok _ :: rest => decodeErrors rest

/-- The values among the results of decoding the elements of a slice. -/
def decodeValues {α : Type} : List (Except GoError α) → List α
  | [] => []
  | Except.error _ :: rest => decodeValues rest
  | Except.ok a :: rest => a :: decodeValues rest

/-- What `mapstructure.Decode` does with a slice target: a nil input leaves the target as it is
(empty); a slice is decoded element by element, and the call fails with the joined errors when
some element fails; any other input is an error. -/
def Mapstructure.decodeSlice {α : Type} (ms : Mapstructure) (elem : Any → Except GoError α) :
    Any → Except GoError (List α)
  | Any.nil => Except.ok []
  | Any.slice xs =>
    if (decodeErrors (xs.map elem)).isEmpty then Except.ok (decodeValues (xs.map elem))
    else Except.error (ms.joinErrors (decodeErrors (xs.map elem)))
  | _ => Except.error (GoError.text "source data must be an array or slice")

/-- Modelled from the spec: `DecodeError`, which repository.go calls and which is defined in a
file outside `src/`.  The spec (4.5) has it "construct a structured domain error from the
mapping's fields": the error it returns is never nil and carries the mapping. -/
def DecodeError (e : StrMap) : GoError :=
  GoError.domain e

/-- Dynamic type name as the runtime prints it in the panic of a failed type assertion: `nil` for
a nil interface (where the verb `%T` prints `<nil>`), the type name otherwise. -/
def Any.runtimeTypeName : Any → String
  | Any.nil => "nil"
  | x => x.typeName

/-- The panic of a failed type assertion `x.(T)`. -/
def assertionPanic (x : Any) (target : String) : String :=
  "interface conversion: interface \x7b\x7d is " ++ x.runtimeTypeName ++ ", not " ++ target

/-- Function `decodeRepository` (repository.go:320-334). -/
def decodeRepository (ms : Mapstructure) (repoResponse : Any) : Outcome (Option Repository) :=
  match repoResponse with
  | Any.map repoMap =>
    if (StrMap.get repoMap "type").eqString "error" then
      Outcome.ret none (some (DecodeError repoMap))
    else
      match ms.toRepository (Any.map repoMap) with
      | Except.error err => Outcome.ret none (some err)
      | Except.ok repository => Outcome.ret (some repository) none
  | other => Outcome.panic (assertionPanic other "map[string]interface \x7b\x7d")

/-- Function `decodeRepositoryFiles` (repository.go:336-350); a nil slice is the empty list. -/
def decodeRepositoryFiles (ms : Mapstructure) (repoResponse : Any) :
    Outcome (List RepositoryFile) :=
  match repoResponse with
  | Any.map repoFileMap =>
    if (StrMap.get repoFileMap "type").eqString "error" then
      Outcome.ret [] (some (DecodeError repoFileMap))
    else
      match ms.decodeSlice ms.toRepositoryFile (StrMap.get repoFileMap "values") with
      | Except.error err => Outcome.ret [] (some err)
      | Except.ok repositoryFiles => Outcome.ret repositoryFiles none
  | other => Outcome.panic (assertionPanic other "map[string]interface \x7b\x7d")

/-- Function `json.Unmarshal` into a `map[string]interface{}` target: a JSON object fills the
map, JSON `null` leaves the nil map as it is, any other document is a type error. -/
def unmarshalMap (env : Env) (data : Option Bytes) : Except GoError StrMap :=
  match env.Unmarshal data with
  | Except.error err => Except.error err
  | Except.ok (Any.map m) => Except.ok m
  | Except.ok Any.nil => Except.ok []
  | Except.ok _ =>
    Except.error (GoError.text
      "json: cannot unmarshal into Go value of type map[string]interface \x7b\x7d")

/-- The loop of repository.go:361-368: decode every entry, keep the ones that decode. -/
def decodeBranchEntries (ms : Mapstructure) (branchArray : List Any) : List RepositoryBranch :=
  branchArray.foldl
    (fun branches branchEntry =>
      match ms.toRepositoryBranch branchEntry with
      | Except.ok branch => branches ++ [branch]
      | Except.error _ => branches)
    []

/-- Comma-ok assertion `x.(float64)` followed by the conversion to `int`, 0 when it fails. -/
def floatField (x : Any) : Int :=
  match x with
  | Any.float64 v => v
  | _ => 0

/-- Comma-ok assertion `x.(string)`, empty when it fails. -/
def stringField (x : Any) : String :=
  match x with
  | Any.string v => v
  | _ => ""

/-- Function `decodeRepositoryBranches` (repository.go:352-397). -/
def decodeRepositoryBranches (env : Env) (ms : Mapstructure) (branchResponse : Any) :
    Outcome (Option RepositoryBranches) :=
  match branchResponse with
  | Any.bytes data =>
    match unmarshalMap env data with
    | Except.error err => Outcome.ret none (some err)
    | Except.ok branchResponseMap =>
      match StrMap.get branchResponseMap "values" with
      | Any.slice branchArray =>
        let branches := decodeBranchEntries ms branchArray
        let page := floatField (StrMap.get branchResponseMap "page")
        let pagelen := floatField (StrMap.get branchResponseMap "pagelen")
        let size := floatField (StrMap.get branchResponseMap "size")
        let next := stringField (StrMap.get branchResponseMap "next")
        Outcome.ret
          (some { Page := page, Pagelen := pagelen, Size := size, Next := next,
                  Branches := branches })
          none
      | other => Outcome.panic (assertionPanic other "[]interface \x7b\x7d")
  | other => Outcome.panic (assertionPanic other "[]uint8")

/-- Function `decodePipelineRepository` (repository.go:399-413). -/
def decodePipelineRepository (ms : Mapstructure) (repoResponse : Any) :
    Outcome (Option Pipeline) :=
  match repoResponse with
  | Any.map repoMap =>
    if (StrMap.get repoMap "type").eqString "error" then
      Outcome.ret none (some (DecodeError repoMap))
    else
      match ms.toPipeline (Any.map repoMap) with
      | Except.error err => Outcome.ret none (some err)
      | Except.ok pipeline => Outcome.ret (some pipeline) none
  | other => Outcome.panic (assertionPanic other "map[string]interface \x7b\x7d")

/-- Function `decodePipelineVariableRepository` (repository.go:415-429). -/
def decodePipelineVariableRepository (ms : Mapstructure) (repoResponse : Any) :
    Outcome (Option PipelineVariable) :=
  match repoResponse with
  | Any.map repoMap =>
    if (StrMap.get repoMap "type").eqString "error" then
      Outcome.ret none (some (DecodeError repoMap))
    else
      match ms.toPipelineVariable (Any.map repoMap) with
      | Except.error err => Outcome.ret none (some err)
      | Except.ok pipelineVariable => Outcome.ret (some pipelineVariable) none
  | other => Outcome.panic (assertionPanic other "map[string]interface \x7b\x7d")

/-- Function `decodePipelineKeyPairRepository` (repository.go:431-445). -/
def decodePipelineKeyPairRepository (ms : Mapstructure) (repoResponse : Any) :
    Outcome (Option PipelineKeyPair) :=
  match repoResponse with
  | Any.map repoMap =>
    if (StrMap.get repoMap "type").eqString "error" then
      Outcome.ret none (some (DecodeError repoMap))
    else
      match ms.toPipelineKeyPair (Any.map repoMap) with
      | Except.error err => Outcome.ret none (some err)
      | Except.ok pipelineKeyPair => Outcome.ret (some pipelineKeyPair) none
  | other => Outcome.panic (assertionPanic other "map[string]interface \x7b\x7d")

/-! ## A concrete environment

`goEnv` instantiates the library part of `Env` with executable models of `net/url`, `fmt` and
`encoding/base64`.  They follow the Go libraries on the inputs used below: URLs of the form
`scheme://host/path?query#fragment` whose query needs no percent-escapes, format strings whose
`%` directives carry neither `*` nor an argument index, and ASCII credentials.  The server and the
JSON decoder stay parameters. -/

/-- Split at the first occurrence of a separator; the second part is `none` when there is none. -/
def splitOnce (sep : Char) : List Char → List Char × Option (List Char)
  | [] => ([], none)
  | c :: cs =>
    if c = sep then ([], some cs)
    else ((c :: (splitOnce sep cs).1), (splitOnce sep cs).2)

/-- Split at every occurrence of a separator. -/
def splitAll (sep : Char) : List Char → List (List Char)
  | [] => [[]]
  | c :: cs =>
    match splitAll sep cs with
    | [] => [[c]]
    | seg :: segs => if c = sep then [] :: seg :: segs else (c :: seg) :: segs

/-- Lexicographic order on strings by code point, as Go compares keys when sorting. -/
def ltChars : List Char → List Char → Bool
  | _, [] => false
  | [], _ :: _ => true
  | a :: as, b :: bs => a.toNat < b.toNat || (a.toNat == b.toNat && ltChars as bs)

/-- Insert a key-value row into a list sorted by key. -/
def insertByKey (kv : String × List String) : Values → Values
  | [] => [kv]
  | x :: xs => if ltChars x.1.data kv.1.data then x :: insertByKey kv xs else kv :: x :: xs

/-- Sort the rows of a `url.Values` by key. -/
def sortByKey : Values → Values
  | [] => []
  | x :: xs => insertByKey x (sortByKey xs)

/-- Method `Values.Add`: append a value to the list stored under the key. -/
def Values.Add (v : Values) (key value : String) : Values :=
  if (v.lookup key).isSome then
    v.map (fun kv => if kv.1 == key then (kv.1, kv.2 ++ [value]) else kv)
  else
    v ++ [(key, [value])]

/-- Function `url.ParseQuery` on a raw query without escapes: `k=v` pairs separated by `&`. -/
def goParseQuery (raw : String) : Values :=
  (splitAll '&' raw.data).foldl
    (fun acc seg =>
      if seg.isEmpty then acc
      else
        match splitOnce '=' seg with
        | (k, some v) => Values.Add acc (String.mk k) (String.mk v)
        | (k, none) => Values.Add acc (String.mk k) "")
    []

/-- Method `Values.Encode` on values that need no escapes: rows sorted by key, `k=v` joined
by `&`. -/
def goEncode (v : Values) : String :=
  "&".intercalate
    ((sortByKey v).flatMap (fun kv => kv.2.map (fun value => kv.1 ++ "=" ++ value)))

/-- Function `url.Parse` on `scheme://host/path?query#fragment` (each part optional); as in Go, a
control character is an error. -/
def goParse (rawURL : String) : Except GoError URL :=
  if rawURL.data.any (fun c => c.toNat < 32 || c.toNat == 127) then
    Except.error (GoError.text "net/url: invalid control character in URL")
  else
    let (s1, frag) := splitOnce '#' rawURL.data
    let (s2, query) := splitOnce '?' s1
    let fragment := String.mk (frag.getD [])
    let rawQuery := String.mk (query.getD [])
    match splitOnce ':' s2 with
    | (scheme, some rest) =>
      if !scheme.isEmpty && scheme.all Char.isAlphanum && startsWith rest ['/', '/'] then
        let authority := rest.drop 2
        Except.ok { Scheme := String.mk scheme,
                    Host := String.mk (authority.takeWhile (fun c => c != '/')),
                    Path := String.mk (authority.dropWhile (fun c => c != '/')),
                    RawQuery := rawQuery, Fragment := fragment }
      else
        Except.ok { Scheme := "", Host := "", Path := String.mk s2,
                    RawQuery := rawQuery, Fragment := fragment }
    | (_, none) =>
      Except.ok { Scheme := "", Host := "", Path := String.mk s2,
                  RawQuery := rawQuery, Fragment := fragment }

/-- Method `URL.String()` on the parts kept by `goParse`. -/
def goURLString (u : URL) : String :=
  (if u.Scheme ≠ "" then u.Scheme ++ ":" else "") ++
  (if u.Scheme ≠ "" ∨ u.Host ≠ "" then "//" ++ u.Host else "") ++
  u.Path ++
  (if u.RawQuery ≠ "" then "?" ++ u.RawQuery else "") ++
  (if u.Fragment ≠ "" then "#" ++ u.Fragment else "")

/-- Where `fmt` is while scanning a format string: in literal text, or inside a `%` directive
(reading flags, the width, the precision). -/
inductive FmtState where
  | text : FmtState
  | flags : FmtState
  | width : FmtState
  | precision : FmtState

/-- What `fmt` prints for a verb when no operand is left. -/
def fmtVerb (c : Char) : List Char :=
  if c = '%' then ['%'] else "%!".data ++ [c] ++ "(MISSING)".data

/-- The text `fmt.Sprintf(format)` produces when called without operands: literal text is copied,
`%%` is a percent sign, any other verb prints `%!verb(MISSING)`, and a directive cut short by the
end of the string prints `%!(NOVERB)`. -/
def fmtRun : FmtState → List Char → List Char
  | FmtState.text, [] => []
  | _, [] => "%!(NOVERB)".data
  | FmtState.text, c :: cs =>
    if c = '%' then fmtRun FmtState.flags cs else c :: fmtRun FmtState.text cs
  | FmtState.flags, c :: cs =>
    if c = '#' ∨ c = '0' ∨ c = '+' ∨ c = '-' ∨ c = ' ' then fmtRun FmtState.flags cs
    else if c.isDigit then fmtRun FmtState.width cs
    else if c = '.' then fmtRun FmtState.precision cs
    else fmtVerb c ++ fmtRun FmtState.text cs
  | FmtState.width, c :: cs =>
    if c.isDigit then fmtRun FmtState.width cs
    else if c = '.' then fmtRun FmtState.precision cs
    else fmtVerb c ++ fmtRun FmtState.text cs
  | FmtState.precision, c :: cs =>
    if c.isDigit then fmtRun FmtState.precision cs
    else fmtVerb c ++ fmtRun FmtState.text cs

/-- Message of `fmt.Errorf(format)` called without operands. -/
def goErrorf (format : String) : String :=
  String.mk (fmtRun FmtState.text format.data)

/-- The base64 alphabet of `encoding/base64.StdEncoding`. -/
def base64Alphabet : List Char :=
  "ABCDEFGHIJKLMNOPQRSTUVWXYZabcdefghijklmnopqrstuvwxyz0123456789+/".data

/-- The base64 digit of a 6-bit number. -/
def base64Digit (n : Nat) : Char :=
  base64Alphabet.getD n 'A'

/-- Standard base64 with padding, on a list of bytes. -/
def base64Bytes : List Nat → List Char
  | [] => []
  | [a] => [base64Digit (a / 4), base64Digit (a % 4 * 16), '=', '=']
  | [a, b] =>
    [base64Digit (a / 4), base64Digit (a % 4 * 16 + b / 16), base64Digit (b % 16 * 4), '=']
  | a :: b :: c :: rest =>
    base64Digit (a / 4) :: base64Digit (a % 4 * 16 + b / 16) ::
      base64Digit (b % 16 * 4 + c / 64) :: base64Digit (c % 64) :: base64Bytes rest

/-- Standard base64 of an ASCII string. -/
def goBase64 (s : String) : String :=
  String.mk (base64Bytes (s.data.map Char.toNat))

/-- The concrete environment: the library models above around a given server and JSON decoder;
`http.NewRequest` accepts its arguments. -/
def goEnv (server : Request → Except GoError Response)
    (unmarshal : Option Bytes → Except GoError Any) : Env :=
  { Parse := goParse, ParseQuery := goParseQuery, Encode := goEncode, URLString := goURLString,
    NewRequestErr := fun _ _ => none, Do := server, Unmarshal := unmarshal,
    Errorf := goErrorf, Base64 := goBase64 }

/-! ## Page chains -/

/-- The `values` sequence of a page, empty when the page has none. -/
def valuesOf (m : StrMap) : List Any :=
  match StrMap.get m "values" with
  | Any.slice vs => vs
  | _ => []

/-- The URLs of the requests sent, in order. -/
def sentURLs : List Event → List String
  | [] => []
  | Event.send req :: tr => req.URL :: sentURLs tr
  | _ :: tr => sentURLs tr

/-- The requests sent, in order. -/
def sentRequests : List Event → List Request
  | [] => []
  | Event.send req :: tr => req :: sentRequests tr
  | _ :: tr => sentRequests tr

/-- Fetching `url` with this client succeeds with valid JSON and decodes to the mapping `m`,
whose `values` is a sequence. -/
def FetchesPage (env : Env) (c : Client) (method text url : String) (m : StrMap) : Prop :=
  (executePage env c method url text).1 = (Any.map m, none) ∧
    ∃ vs, StrMap.get m "values" = Any.slice vs

/-- `PageChain env c method text url pages`: fetching `url` yields the first page of `pages`;
every page but the last carries a non-empty string `next` and fetching that URL yields the
following page; the `next` of the last page is empty or absent. -/
def PageChain (env : Env) (c : Client) (method text : String) : String → List StrMap → Prop
  | _, [] => False
  | url, [m] =>
    FetchesPage env c method text url m ∧
      (StrMap.get m "next" = Any.nil ∨ StrMap.get m "next" = Any.string "")
  | url, m :: m2 :: rest =>
    FetchesPage env c method text url m ∧
      ∃ next, next ≠ "" ∧ StrMap.get m "next" = Any.string next ∧
        PageChain env c method text next (m2 :: rest)

/-- The page at `url` is one whose `next` link `execute` follows: a mapping with a non-empty
string `next` and a `values` sequence. -/
def Follows (env : Env) (c : Client) (method text url next : String) : Prop :=
  ∃ m vs, (executePage env c method url text).1 = (Any.map m, none) ∧
    StrMap.get m "next" = Any.string next ∧ next ≠ "" ∧ StrMap.get m "values" = Any.slice vs

/-- The answer to fetching `url` is unusable as a continuation: the fetch or the JSON parse
fails, or the decoded value is not a mapping, or it is a mapping without `values` (absent or
null). -/
def BadPage (env : Env) (c : Client) (method text url : String) : Prop :=
  match (executePage env c method url text).1 with
  | (_, some _) => True
  | (Any.map m, none) => StrMap.get m "values" = Any.nil
  | (_, none) => True

/-- `FollowsToBad env c method text url d`: starting from `url`, `execute` follows `d` links
`next`, and the page reached by the last one is a `BadPage`. -/
inductive FollowsToBad (env : Env) (c : Client) (method text : String) : String → Nat → Prop where
  | last (url next : String) :
      Follows env c method text url next → BadPage env c method text next →
      FollowsToBad env c method text url 1
  | more (url next : String) (d : Nat) :
      Follows env c method text url next → FollowsToBad env c method text next d →
      FollowsToBad env c method text url (d + 1)

/-- The mapping that `execute` returns after a merge (client.go:228-233). -/
def mergedMap (resultMap : StrMap) (valuesSlice nextValuesSlice : List Any) : StrMap :=
  StrMap.delete
    (StrMap.delete
      (StrMap.delete (StrMap.set resultMap "values" (Any.slice (valuesSlice ++ nextValuesSlice)))
        "page")
      "pagelen")
    "size"

/-- The concatenation of the `values` sequences of the pages, in page order. -/
def concatValues : List StrMap → List Any
  | [] => []
  | m :: ms => valuesOf m ++ concatValues ms

/-! ## A demonstration server

Two collections of the Bitbucket API served over two pages each, one collection whose second page
is broken, and the answers of the server when the client asks for 50 items per page. -/

/-- First page of the forks collection. -/
def forksURL : String := "https://api.bitbucket.org/2.0/repositories/o/r/forks"

/-- Second page of the forks collection. -/
def forksURL2 : String := "https://api.bitbucket.org/2.0/repositories/o/r/forks?page=2"

/-- First page of the forks collection, 50 items per page. -/
def forksURL50 : String := "https://api.bitbucket.org/2.0/repositories/o/r/forks?pagelen=50"

/-- The `next` link that the server puts in the first page when asked for 50 items per page. -/
def forksNext50 : String :=
  "https://api.bitbucket.org/2.0/repositories/o/r/forks?pagelen=50&page=2"

/-- The same link after the client has re-encoded its query. -/
def forksURL50p2 : String :=
  "https://api.bitbucket.org/2.0/repositories/o/r/forks?page=2&pagelen=50"

/-- First page of the watchers collection. -/
def watchersURL : String := "https://api.bitbucket.org/2.0/repositories/o/r/watchers"

/-- Second page of the watchers collection. -/
def watchersURL2 : String := "https://api.bitbucket.org/2.0/repositories/o/r/watchers?page=2"

/-- Body of the first forks page. -/
def forksBody1 : Bytes :=
  "\x7b\"pagelen\":2,\"size\":3,\"page\":1,\"values\":[\"A\",\"B\"],\"next\":\"https://api.bitbucket.org/2.0/repositories/o/r/forks?page=2\"\x7d"

/-- Body of the second forks page. -/
def forksBody2 : Bytes :=
  "\x7b\"pagelen\":2,\"size\":3,\"page\":2,\"values\":[\"C\"]\x7d"

/-- Body of the first forks page, 50 items per page. -/
def forksBody50 : Bytes :=
  "\x7b\"pagelen\":50,\"values\":[\"A\",\"B\"],\"next\":\"https://api.bitbucket.org/2.0/repositories/o/r/forks?pagelen=50&page=2\"\x7d"

/-- Body of the first watchers page. -/
def watchersBody1 : Bytes :=
  "\x7b\"values\":[\"W\"],\"next\":\"https://api.bitbucket.org/2.0/repositories/o/r/watchers?page=2\"\x7d"

/-- Body of the second watchers page: a mapping without `values`. -/
def watchersBody2 : Bytes :=
  "\x7b\"page\":2\x7d"

/-- The first forks page, decoded. -/
def forksPage1 : StrMap :=
  [("pagelen", Any.float64 2), ("size", Any.float64 3), ("page", Any.float64 1),
   ("values", Any.slice [Any.string "A", Any.string "B"]), ("next", Any.string forksURL2)]

/-- The second forks page, decoded. -/
def forksPage2 : StrMap :=
  [("pagelen", Any.float64 2), ("size", Any.float64 3), ("page", Any.float64 2),
   ("values", Any.slice [Any.string "C"])]

/-- The first forks page at 50 items per page, decoded. -/
def forksPage50 : StrMap :=
  [("pagelen", Any.float64 50), ("values", Any.slice [Any.string "A", Any.string "B"]),
   ("next", Any.string forksNext50)]

/-- The first watchers page, decoded. -/
def watchersPage1 : StrMap :=
  [("values", Any.slice [Any.string "W"]), ("next", Any.string watchersURL2)]

/-- The second watchers page, decoded. -/
def watchersPage2 : StrMap :=
  [("page", Any.float64 2)]

/-- A `200 OK` response with the given body. -/
def okResponse (body : Bytes) : Response :=
  { StatusCode := 200, Status := "200 OK", Body := some { data := body, readErr := none } }

/-- The demonstration server. -/
def demoServer (req : Request) : Except GoError Response :=
  if req.URL = forksURL then Except.ok (okResponse forksBody1)
  else if req.URL = forksURL2 then Except.ok (okResponse forksBody2)
  else if req.URL = forksURL50 then Except.ok (okResponse forksBody50)
  else if req.URL = forksURL50p2 then Except.ok (okResponse forksBody2)
  else if req.URL = watchersURL then Except.ok (okResponse watchersBody1)
  else if req.URL = watchersURL2 then Except.ok (okResponse watchersBody2)
  else Except.ok { StatusCode := 404, Status := "404 Not Found",
                   Body := some { data := "", readErr := none } }

/-- An error envelope as the Bitbucket API sends it. -/
def errorEnvelope : StrMap :=
  [("type", Any.string "error"),
   ("error", Any.map [("message", Any.string "Repository o/r not found")])]

/-- The JSON text of `errorEnvelope`. -/
def errorBody : Bytes :=
  "\x7b\"type\":\"error\",\"error\":\x7b\"message\":\"Repository o/r not found\"\x7d\x7d"

/-- An error envelope that also carries an empty `values`. -/
def errorEnvelopeWithValues : StrMap :=
  [("type", Any.string "error"),
   ("error", Any.map [("message", Any.string "Repository o/r not found")]),
   ("values", Any.slice [])]

/-- The JSON text of `errorEnvelopeWithValues`. -/
def errorBodyWithValues : Bytes :=
  "\x7b\"type\":\"error\",\"error\":\x7b\"message\":\"Repository o/r not found\"\x7d,\"values\":[]\x7d"

/-- A branch listing: one entry that is a branch, one that is not a mapping. -/
def branchesEnvelope : StrMap :=
  [("pagelen", Any.float64 10),
   ("values", Any.slice [Any.map [("name", Any.string "master")], Any.string "x",
      Any.map [("name", Any.string "develop")]])]

/-- The JSON text of `branchesEnvelope`. -/
def branchesBody : Bytes :=
  "\x7b\"pagelen\":10,\"values\":[\x7b\"name\":\"master\"\x7d,\"x\",\x7b\"name\":\"develop\"\x7d]\x7d"

/-- Decoding the bodies of the demonstration server; any other text is a syntax error. -/
def demoUnmarshal (data : Option Bytes) : Except GoError Any :=
  if data = some forksBody1 then Except.ok (Any.map forksPage1)
  else if data = some forksBody2 then Except.ok (Any.map forksPage2)
  else if data = some forksBody50 then Except.ok (Any.map forksPage50)
  else if data = some watchersBody1 then Except.ok (Any.map watchersPage1)
  else if data = some watchersBody2 then Except.ok (Any.map watchersPage2)
  else if data = some errorBody then Except.ok (Any.map errorEnvelope)
  else if data = some errorBodyWithValues then Except.ok (Any.map errorEnvelopeWithValues)
  else if data = some branchesBody then Except.ok (Any.map branchesEnvelope)
  else Except.error (GoError.text "unexpected end of JSON input")

/-- The environment of the demonstrations. -/
def demoEnv : Env := goEnv demoServer demoUnmarshal

/-- A client holding a bearer token, with the given page size. -/
def demoClient (pagelen : Nat) : Client :=
  { Auth := { appID := "", secret := "", user := "", password := "",
              token := { Valid := false, AuthHeader := "" }, bearerToken := "secret" },
    Pagelen := pagelen }

/-- The request of the demonstration client for the first forks page, 50 items per page. -/
def forksRequest50 : Request :=
  { Method := "GET", URL := forksURL50, Header := [("Authorization", "Bearer secret")],
    Body := "" }

/-- The URL that `ListBranches` builds for owner `o`, repository `r` and ten branches per
page. -/
def branchesURL : String :=
  "https://api.bitbucket.org/2.0/repositories/o/r/refs/branches?pagelen=10"

/-- The URL that `GetFileBlob` builds for a file of the repository. -/
def blobURL : String :=
  "https://api.bitbucket.org/2.0/repositories/o/r/src/master/README.md"

/-- How many entries of the header carry the key. -/
def Header.count (h : Header) (k : String) : Nat :=
  (h.filter (fun kv => kv.1 == k)).length

/-- A client that holds a bearer token as well as a user name and a password. -/
def mixedClient : Client :=
  { Auth := { appID := "", secret := "", user := "u", password := "p",
              token := { Valid := false, AuthHeader := "" }, bearerToken := "secret" },
    Pagelen := 100 }

/-- A client that holds a bearer token as well as a valid OAuth2 token. -/
def tokenClient : Client :=
  { Auth := { appID := "id", secret := "s", user := "", password := "",
              token := { Valid := true, AuthHeader := "Bearer oauth-access" },
              bearerToken := "secret" },
    Pagelen := 100 }

/-- A request as `http.NewRequest` builds it, before authentication. -/
def plainRequest : Request :=
  { Method := "GET", URL := forksURL, Header := [], Body := "" }

/-- A repository with every field at its zero value. -/
def emptyRepository : Repository :=
  { Project := { Key := "", Name := "" }, Slug := "", Full_name := "", Description := "",
    ForkPolicy := "", Type_ := "", Owner := [], Links := [] }

/-- A branch with the given name and every other field at its zero value. -/
def branchNamed (name : String) : RepositoryBranch :=
  { Type_ := "", Name := name, Default_Merge_Strategy := "", Merge_Strategies := [],
    Links := [], Target := [], Heads := [] }

/-- A file with the given path and every other field at its zero value. -/
def fileAt (path : String) : RepositoryFile :=
  { Mimetype := "", Links := [], Path := path, Commit := [], Attributes := [], Type_ := "",
    Size := 0 }

/-- Decoding into a struct with one string field read from the key `key`: the input must be a
mapping, and the key, when present, must hold a string. -/
def decodeStringField {α : Type} (key : String) (build : String → α) : Any → Except GoError α
  | Any.map m =>
    match StrMap.get m key with
    | Any.string v => Except.ok (build v)
    | Any.nil => Except.ok (build "")
    | _ => Except.error (GoError.text ("'" ++ key ++ "' expected type 'string'"))
  | _ => Except.error (GoError.text "expected a map")

/-- A small instance of `mapstructure` for the demonstrations: each struct is filled from one
string key of the input mapping. -/
def demoMapstructure : Mapstructure :=
  { toRepository := decodeStringField "slug" (fun v => { emptyRepository with Slug := v }),
    toRepositoryFile := decodeStringField "path" fileAt,
    toRepositoryBranch := decodeStringField "name" branchNamed,
    toPipeline := decodeStringField "type"
      (fun v => { Type_ := v, Enabled := false, Repository := emptyRepository }),
    toPipelineVariable := decodeStringField "key"
      (fun v => { Type_ := "", Uuid := "", Key := v, Value := "", Secured := false }),
    toPipelineKeyPair := decodeStringField "public_key"
      (fun v => { Type_ := "", Uuid := "", PublicKey := v, PrivateKey := "" }),
    joinErrors := fun errs => GoError.text (Nat.repr errs.length ++ " error(s) decoding") }

/-- A file listing: one entry that is not a mapping, one that is a file. -/
def filesEnvelope : StrMap :=
  [("values", Any.slice [Any.string "x", Any.map [("path", Any.string "README.md")]])]

/-- A server that answers every request with a 500 whose reason phrase holds a percent sign. -/
def busyServer (_req : Request) : Except GoError Response :=
  Except.ok { StatusCode := 500, Status := "500 disk 95%full",
              Body := some { data := "", readErr := none } }

/-- The environment around `busyServer`. -/
def busyEnv : Env := goEnv busyServer demoUnmarshal

/-! ## Pages of an unexpected shape -/

/-- A collection whose page carries a number under `next`. -/
def commitsURL : String := "https://api.bitbucket.org/2.0/repositories/o/r/commits"

/-- A collection whose page carries a mapping under `values`. -/
def pullRequestsURL : String := "https://api.bitbucket.org/2.0/repositories/o/r/pullrequests"

/-- Body of the commits page: `next` is the number of the following page. -/
def commitsBody : Bytes :=
  "\x7b\"next\":2,\"values\":[\"A\"]\x7d"

/-- Body of the pull requests page: `values` is a mapping, `next` a link. -/
def pullRequestsBody : Bytes :=
  "\x7b\"next\":\"https://api.bitbucket.org/2.0/repositories/o/r/pullrequests?page=2\",\"values\":\x7b\"0\":\"A\"\x7d\x7d"

/-- The commits page, decoded. -/
def commitsPage : StrMap :=
  [("next", Any.float64 2), ("values", Any.slice [Any.string "A"])]

/-- The pull requests page, decoded. -/
def pullRequestsPage : StrMap :=
  [("next", Any.string "https://api.bitbucket.org/2.0/repositories/o/r/pullrequests?page=2"),
   ("values", Any.map [("0", Any.string "A")])]

/-- A server that answers with the two pages above. -/
def oddServer (req : Request) : Except GoError Response :=
  if req.URL = commitsURL then Except.ok (okResponse commitsBody)
  else if req.URL = pullRequestsURL then Except.ok (okResponse pullRequestsBody)
  else Except.ok { StatusCode := 404, Status := "404 Not Found",
                   Body := some { data := "", readErr := none } }

/-- Decoding the bodies of `oddServer`; both are valid JSON. -/
def oddUnmarshal (data : Option Bytes) : Except GoError Any :=
  if data = some commitsBody then Except.ok (Any.map commitsPage)
  else if data = some pullRequestsBody then Except.ok (Any.map pullRequestsPage)
  else Except.error (GoError.text "unexpected end of JSON input")

/-- The environment around `oddServer`. -/
def oddEnv : Env := goEnv oddServer oddUnmarshal

/-! ## Chains of pages linked by their literal `next` -/

/-- The server answers the request for exactly `url` (as `http.NewRequest` and
`authenticateRequest` build it, no rewriting of the URL) with valid JSON that decodes to the
mapping `m`, whose `values` is a sequence. -/
def ServesPage (env : Env) (c : Client) (method text url : String) (m : StrMap) : Prop :=
  ∃ req, newAuthenticatedRequest env c method url text = Except.ok req ∧
    (doRequest env req false).1 = (Any.map m, none) ∧
    ∃ vs, StrMap.get m "values" = Any.slice vs

/-- `LinkedChain env c method text requested url pages`: a chain of pages starting at `url`, where
`requested` says which URL is asked of the server for a given link.  The first page is served at
`requested url`; every page but the last carries a non-empty string `next`, and the following
page is served at `requested next`; the `next` of the last page is empty or absent.  With
`requested := Except.ok` every page is served at the literal link. -/
def LinkedChain (env : Env) (c : Client) (method text : String)
    (requested : String → Except GoError String) : String → List StrMap → Prop
  | _, [] => False
  | url, [m] =>
    (∃ u, requested url = Except.ok u ∧ ServesPage env c method text u m) ∧
      (StrMap.get m "next" = Any.nil ∨ StrMap.get m "next" = Any.string "")
  | url, m :: m2 :: rest =>
    (∃ u, requested url = Except.ok u ∧ ServesPage env c method text u m) ∧
      ∃ next, next ≠ "" ∧ StrMap.get m "next" = Any.string next ∧
        LinkedChain env c method text requested next (m2 :: rest)

/-- Body of a last page without items. -/
def emptyBody : Bytes :=
  "\x7b\"values\":[]\x7d"

/-- A last page without items, decoded. -/
def emptyPage : StrMap :=
  [("values", Any.slice [])]

/-- A server that serves the second forks page at the link it wrote in the first page,
`.../forks?pagelen=50&page=2`, and a page without items at `.../forks?page=2&pagelen=50`. -/
def literalServer (req : Request) : Except GoError Response :=
  if req.URL = forksURL50 then Except.ok (okResponse forksBody50)
  else if req.URL = forksNext50 then Except.ok (okResponse forksBody2)
  else if req.URL = forksURL50p2 then Except.ok (okResponse emptyBody)
  else Except.ok { StatusCode := 404, Status := "404 Not Found",
                   Body := some { data := "", readErr := none } }

/-- Decoding the bodies of `literalServer`. -/
def literalUnmarshal (data : Option Bytes) : Except GoError Any :=
  if data = some forksBody50 then Except.ok (Any.map forksPage50)
  else if data = some forksBody2 then Except.ok (Any.map forksPage2)
  else if data = some emptyBody then Except.ok (Any.map emptyPage)
  else Except.error (GoError.text "unexpected end of JSON input")

/-- The environment around `literalServer`. -/
def literalEnv : Env := goEnv literalServer literalUnmarshal

/-! # Theorems -/

/-! ## Lemmas on maps -/

theorem lookup_filter_ne {β : Type} (m : List (String × β)) (k k2 : String) (h : k2 ≠ k) :
    (m.filter (fun kv => !(kv.1 == k))).lookup k2 = m.lookup k2 := by
  induction m with
  | nil => rfl
  | cons kv rest ih =>
    obtain ⟨a, b⟩ := kv
    by_cases hak : a = k
    · subst hak
      have h1 : (k2 == a) = false := by simpa using h
      simp [List.filter_cons, List.lookup_cons, h1, ih]
    · by_cases hk2 : k2 = a
      · subst hk2
        simp [List.filter_cons, List.lookup_cons, hak]
      · have h1 : (k2 == a) = false := by simpa using hk2
        simp [List.filter_cons, List.lookup_cons, hak, h1, ih]

theorem lookup_filter_self {β : Type} (m : List (String × β)) (k : String) :
    (m.filter (fun kv => !(kv.1 == k))).lookup k = none := by
  induction m with
  | nil => rfl
  | cons kv rest ih =>
    obtain ⟨a, b⟩ := kv
    by_cases hak : a = k
    · subst hak
      simp [List.filter_cons, ih]
    · have h1 : (k == a) = false := by simpa using (Ne.symm hak)
      simp [List.filter_cons, List.lookup_cons, hak, h1, ih]

theorem StrMap.get_delete_ne (m : StrMap) (k k2 : String) (h : k2 ≠ k) :
    StrMap.get (StrMap.delete m k) k2 = StrMap.get m k2 := by
  unfold StrMap.get StrMap.delete
  rw [lookup_filter_ne m k k2 h]

theorem StrMap.hasKey_delete_self (m : StrMap) (k : String) :
    StrMap.hasKey (StrMap.delete m k) k = false := by
  unfold StrMap.hasKey StrMap.delete
  rw [lookup_filter_self]
  rfl

theorem StrMap.hasKey_delete_of_false (m : StrMap) (k k2 : String)
    (h : StrMap.hasKey m k2 = false) : StrMap.hasKey (StrMap.delete m k) k2 = false := by
  by_cases hk : k2 = k
  · subst hk
    exact StrMap.hasKey_delete_self m k2
  · unfold StrMap.hasKey StrMap.delete at *
    rw [lookup_filter_ne m k k2 hk]
    exact h

theorem StrMap.get_set_self (m : StrMap) (k : String) (v : Any) :
    StrMap.get (StrMap.set m k v) k = v := by
  simp [StrMap.get, StrMap.set, List.lookup_cons]

theorem mergedMap_values (m : StrMap) (vs vs2 : List Any) :
    StrMap.get (mergedMap m vs vs2) "values" = Any.slice (vs ++ vs2) := by
  unfold mergedMap
  rw [StrMap.get_delete_ne _ _ _ (by decide), StrMap.get_delete_ne _ _ _ (by decide),
    StrMap.get_delete_ne _ _ _ (by decide), StrMap.get_set_self]

theorem mergedMap_no_page (m : StrMap) (vs vs2 : List Any) :
    StrMap.hasKey (mergedMap m vs vs2) "page" = false ∧
    StrMap.hasKey (mergedMap m vs vs2) "pagelen" = false ∧
    StrMap.hasKey (mergedMap m vs vs2) "size" = false := by
  unfold mergedMap
  refine ⟨?_, ?_, ?_⟩
  · exact StrMap.hasKey_delete_of_false _ _ _
      (StrMap.hasKey_delete_of_false _ _ _ (StrMap.hasKey_delete_self _ _))
  · exact StrMap.hasKey_delete_of_false _ _ _ (StrMap.hasKey_delete_self _ _)
  · exact StrMap.hasKey_delete_self _ _

/-! ## One step of `execute` -/

section Steps

variable (env : Env) (c : Client) (method text : String)

theorem execute_of_page_error (fuel : Nat) (url : String) (r : Any) (e : GoError)
    (hp : (executePage env c method url text).1 = (r, some e)) :
    execute env c method (fuel + 1) url text =
      some (Outcome.ret Any.nil (some e), (executePage env c method url text).2) := by
  cases hq : executePage env c method url text with
  | mk re tr =>
    rw [hq] at hp
    simp only at hp
    subst hp
    simp [execute, hq]

theorem execute_of_last (fuel : Nat) (url : String) (m : StrMap)
    (hp : (executePage env c method url text).1 = (Any.map m, none))
    (hn : StrMap.get m "next" = Any.nil ∨ StrMap.get m "next" = Any.string "" ∨
      StrMap.get m "values" = Any.nil) :
    execute env c method (fuel + 1) url text =
      some (Outcome.ret (Any.map m) none, (executePage env c method url text).2) := by
  cases hq : executePage env c method url text with
  | mk re tr =>
    rw [hq] at hp
    simp only at hp
    subst hp
    rcases hn with hn | hn | hn
    · simp [execute, hq, hn, Any.isNil]
    · cases hv : StrMap.get m "values" <;> simp [execute, hq, hn, hv, Any.isNil]
    · simp [execute, hq, hn, Any.isNil]

theorem execute_of_not_map (fuel : Nat) (url : String) (r : Any)
    (hp : (executePage env c method url text).1 = (r, none))
    (hr : ∀ m, r ≠ Any.map m) :
    execute env c method (fuel + 1) url text =
      some (Outcome.ret r none, (executePage env c method url text).2) := by
  cases hq : executePage env c method url text with
  | mk re tr =>
    rw [hq] at hp
    simp only at hp
    subst hp
    cases r <;> simp [execute, hq]
    exact absurd rfl (hr _)

theorem execute_follow_none (fuel : Nat) (url next : String) (m : StrMap) (vs : List Any)
    (hp : (executePage env c method url text).1 = (Any.map m, none))
    (hn : StrMap.get m "next" = Any.string next) (hne : next ≠ "")
    (hv : StrMap.get m "values" = Any.slice vs)
    (hrec : execute env c method fuel next text = none) :
    execute env c method (fuel + 1) url text = none := by
  cases hq : executePage env c method url text with
  | mk re tr =>
    rw [hq] at hp
    simp only at hp
    subst hp
    simp [execute, hq, hn, hv, hne, hrec, Any.isNil]

theorem execute_follow_error (fuel : Nat) (url next : String) (m : StrMap) (vs : List Any)
    (hp : (executePage env c method url text).1 = (Any.map m, none))
    (hn : StrMap.get m "next" = Any.string next) (hne : next ≠ "")
    (hv : StrMap.get m "values" = Any.slice vs)
    (r2 : Any) (e : GoError) (tr2 : List Event)
    (hrec : execute env c method fuel next text = some (Outcome.ret r2 (some e), tr2)) :
    execute env c method (fuel + 1) url text =
      some (Outcome.ret Any.nil (some e), (executePage env c method url text).2 ++ tr2) := by
  cases hq : executePage env c method url text with
  | mk re tr =>
    rw [hq] at hp
    simp only at hp
    subst hp
    simp [execute, hq, hn, hv, hne, hrec, Any.isNil]

theorem execute_follow_merge (fuel : Nat) (url next : String) (m : StrMap) (vs : List Any)
    (hp : (executePage env c method url text).1 = (Any.map m, none))
    (hn : StrMap.get m "next" = Any.string next) (hne : next ≠ "")
    (hv : StrMap.get m "values" = Any.slice vs)
    (m2 : StrMap) (vs2 : List Any) (tr2 : List Event)
    (hrec : execute env c method fuel next text = some (Outcome.ret (Any.map m2) none, tr2))
    (hv2 : StrMap.get m2 "values" = Any.slice vs2) :
    execute env c method (fuel + 1) url text =
      some (Outcome.ret (Any.map (mergedMap m vs vs2)) none,
        (executePage env c method url text).2 ++ tr2) := by
  cases hq : executePage env c method url text with
  | mk re tr =>
    rw [hq] at hp
    simp only at hp
    subst hp
    simp [execute, hq, hn, hv, hne, hrec, hv2, Any.isNil, mergedMap]

theorem execute_follow_bad (fuel : Nat) (url next : String) (m : StrMap) (vs : List Any)
    (hp : (executePage env c method url text).1 = (Any.map m, none))
    (hn : StrMap.get m "next" = Any.string next) (hne : next ≠ "")
    (hv : StrMap.get m "values" = Any.slice vs)
    (r2 : Any) (tr2 : List Event)
    (hrec : execute env c method fuel next text = some (Outcome.ret r2 none, tr2))
    (hbad : (∀ m2, r2 ≠ Any.map m2) ∨ ∃ m2, r2 = Any.map m2 ∧ StrMap.get m2 "values" = Any.nil) :
    ∃ e, execute env c method (fuel + 1) url text =
      some (Outcome.ret Any.nil (some e), (executePage env c method url text).2 ++ tr2) := by
  cases hq : executePage env c method url text with
  | mk re tr =>
    rw [hq] at hp
    simp only at hp
    subst hp
    rcases hbad with hbad | ⟨m2, rfl, hv2⟩
    · cases r2 <;> simp [execute, hq, hn, hv, hne, hrec, Any.isNil]
      exact absurd rfl (hbad _)
    · simp [execute, hq, hn, hv, hne, hrec, hv2, Any.isNil]

end Steps

/-! ## Merging a chain of pages -/

theorem valuesOf_eq (m : StrMap) (vs : List Any) (h : StrMap.get m "values" = Any.slice vs) :
    valuesOf m = vs := by
  simp [valuesOf, h]

/-- The common core of the chain theorems: along a chain of pages `execute` returns, without
error, a mapping whose `values` is the concatenation of the pages' `values`; a single page is
returned as it is, and a chain of two or more pages gives a merged mapping. -/
theorem execute_chain_core (env : Env) (c : Client) (method text : String) :
    ∀ (pages : List StrMap) (url : String) (fuel : Nat),
      PageChain env c method text url pages → pages.length ≤ fuel →
      ∃ r tr, execute env c method fuel url text = some (Outcome.ret (Any.map r) none, tr) ∧
        StrMap.get r "values" = Any.slice (concatValues pages) ∧
        (∀ m, pages = [m] → r = m) ∧
        (2 ≤ pages.length → ∃ m vs vs2, r = mergedMap m vs vs2) := by
  intro pages
  induction pages with
  | nil => intro url fuel h; exact absurd h (by simp [PageChain])
  | cons m rest ih =>
    intro url fuel hchain hfuel
    cases rest with
    | nil =>
      obtain ⟨⟨hp, vs, hvs⟩, hnext⟩ := hchain
      obtain ⟨fuel, rfl⟩ : ∃ k, fuel = k + 1 := ⟨fuel - 1, by simp at hfuel; omega⟩
      refine ⟨m, _, execute_of_last env c method text fuel url m hp ?_, ?_, ?_, ?_⟩
      · rcases hnext with h | h
        · exact Or.inl h
        · exact Or.inr (Or.inl h)
      · simp [concatValues, valuesOf_eq m vs hvs, hvs]
      · intro m2 h; simpa using h
      · intro h; simp at h
    | cons m2 rest2 =>
      obtain ⟨⟨hp, vs, hvs⟩, next, hne, hnext, hrest⟩ := hchain
      obtain ⟨fuel, rfl⟩ : ∃ k, fuel = k + 1 := ⟨fuel - 1, by simp at hfuel; omega⟩
      have hlen : (m2 :: rest2).length ≤ fuel := by simp at hfuel ⊢; omega
      obtain ⟨r2, tr2, hrec, hv2, -, -⟩ := ih next fuel hrest hlen
      refine ⟨mergedMap m vs (concatValues (m2 :: rest2)), _,
        execute_follow_merge env c method text fuel url next m vs hp hnext hne hvs r2 _ tr2
          hrec hv2, ?_, ?_, ?_⟩
      · rw [mergedMap_values]
        simp [concatValues, valuesOf_eq m vs hvs]
      · intro m3 h; simp at h
      · intro _; exact ⟨m, vs, _, rfl⟩

/-- Along a chain of pages as the client fetches them (`PageChain`), `execute` returns, given
fuel for the `N` calls, a mapping without error whose `values` is the concatenation of the pages'
`values` in page order; a single page is returned as it is. -/
theorem execute_chain_values (env : Env) (c : Client) (method text : String)
    (pages : List StrMap) (url : String) (fuel : Nat)
    (hchain : PageChain env c method text url pages) (hfuel : pages.length ≤ fuel) :
    ∃ r tr, execute env c method fuel url text = some (Outcome.ret (Any.map r) none, tr) ∧
      StrMap.get r "values" = Any.slice (concatValues pages) ∧
      (∀ m, pages = [m] → r = m) := by
  obtain ⟨r, tr, h1, h2, h3, -⟩ := execute_chain_core env c method text pages url fuel hchain hfuel
  exact ⟨r, tr, h1, h2, h3⟩

/-! ## Chains linked by the literal `next` against chains as the client requests them -/

/-- With the default page size `execute` requests every URL as it is. -/
theorem executeURL_of_default (env : Env) (c : Client) (url : String)
    (h : c.Pagelen = DEFAULT_PAGE_LENGTH) : executeURL env c url = Except.ok url := by
  unfold executeURL
  simp [h]

/-- A URL that does not contain `/repositories/` is requested as it is. -/
theorem executeURL_of_plain (env : Env) (c : Client) (url : String)
    (h : strings_Contains url "/repositories/" = false) :
    executeURL env c url = Except.ok url := by
  unfold executeURL
  simp [h]

/-- With another page size a URL that contains `/repositories/` is requested with `pagelen` set
in its query and the query re-encoded. -/
theorem executeURL_of_rewrite (env : Env) (c : Client) (url : String) (urlObj : URL)
    (hp : c.Pagelen ≠ DEFAULT_PAGE_LENGTH) (hc : strings_Contains url "/repositories/" = true)
    (hparse : env.Parse url = Except.ok urlObj) :
    executeURL env c url = Except.ok (setPagelen env urlObj c.Pagelen) := by
  unfold executeURL
  simp [hp, hc, hparse]

/-- A page served at the URL that `execute` requests for `url` is the page the client fetches
for `url`. -/
theorem fetchesPage_of_servesPage (env : Env) (c : Client) (method text url u : String)
    (m : StrMap) (hu : executeURL env c url = Except.ok u)
    (hs : ServesPage env c method text u m) : FetchesPage env c method text url m := by
  obtain ⟨req, hreq, hdo, hvs⟩ := hs
  refine ⟨?_, hvs⟩
  rcases hq : doRequest env req false with ⟨⟨r, e⟩, tr⟩
  rw [hq] at hdo
  simp only [Prod.mk.injEq] at hdo
  obtain ⟨rfl, rfl⟩ := hdo
  simp [executePage, executeRequest, hu, hreq, hq]

theorem pageChain_of_linkedChain (env : Env) (c : Client) (method text : String) :
    ∀ (pages : List StrMap) (url : String),
      LinkedChain env c method text (executeURL env c) url pages →
      PageChain env c method text url pages := by
  intro pages
  induction pages with
  | nil => intro url h; exact absurd h (by simp [LinkedChain])
  | cons m rest ih =>
    intro url h
    cases rest with
    | nil =>
      obtain ⟨⟨u, hu, hs⟩, hnext⟩ := h
      exact ⟨fetchesPage_of_servesPage env c method text url u m hu hs, hnext⟩
    | cons m2 rest2 =>
      obtain ⟨⟨u, hu, hs⟩, next, hne, hnext, hrest⟩ := h
      exact ⟨fetchesPage_of_servesPage env c method text url u m hu hs, next, hne, hnext,
        ih next hrest⟩

theorem linkedChain_of_literal (env : Env) (c : Client) (method text : String)
    (h : c.Pagelen = DEFAULT_PAGE_LENGTH) (pages : List StrMap) (url : String)
    (hchain : LinkedChain env c method text Except.ok url pages) :
    LinkedChain env c method text (executeURL env c) url pages := by
  have hfun : executeURL env c = Except.ok := funext (fun u => executeURL_of_default env c u h)
  rw [hfun]
  exact hchain

/-- Counterexample to C1 as stated: a client with page size 50 and a server on which the first
forks page `[A, B]` carries the link `.../forks?pagelen=50&page=2` and that link is answered with
the page `[C]`.  Every page is served at the literal link and all fetches succeed with valid
JSON, but `execute` asks for `.../forks?page=2&pagelen=50`, where the server has a page without
items: the call returns `[A, B]` with a nil error, not `[A, B, C]`. -/
theorem execute_literal_chain_truncated :
    LinkedChain literalEnv (demoClient 50) "GET" "" Except.ok forksURL50
      [forksPage50, forksPage2] ∧
    concatValues [forksPage50, forksPage2] = [Any.string "A", Any.string "B", Any.string "C"] ∧
    (∃ tr, execute literalEnv (demoClient 50) "GET" 2 forksURL50 "" =
        some (Outcome.ret (Any.map (mergedMap forksPage50 [Any.string "A", Any.string "B"] []))
          none, tr) ∧
      sentURLs tr = [forksURL50, forksURL50p2]) ∧
    (∀ fuel, 2 ≤ fuel →
      ∃ r tr, execute literalEnv (demoClient 50) "GET" fuel forksURL50 "" =
          some (Outcome.ret (Any.map r) none, tr) ∧
        StrMap.get r "values" = Any.slice [Any.string "A", Any.string "B"]) :=
  have hclient : PageChain literalEnv (demoClient 50) "GET" "" forksURL50
      [forksPage50, emptyPage] :=
    ⟨⟨rfl, _, rfl⟩, forksNext50, by decide, rfl, ⟨rfl, _, rfl⟩, Or.inl rfl⟩
  ⟨⟨⟨forksURL50, rfl, _, rfl, rfl, _, rfl⟩, forksNext50, by decide, rfl,
      ⟨forksNext50, rfl, _, rfl, rfl, _, rfl⟩, Or.inl rfl⟩,
    rfl,
    ⟨_, rfl, by decide⟩,
    fun fuel hfuel =>
      have h := execute_chain_core literalEnv (demoClient 50) "GET" ""
        [forksPage50, emptyPage] forksURL50 fuel hclient hfuel
      match h with
      | ⟨r, tr, h1, h2, _⟩ => ⟨r, tr, h1, h2⟩⟩

/-- **C1, amended.** For every chain of `N ≥ 1` pages in which each page decodes to a mapping
whose `values` is a sequence, every page but the last carries a non-empty string `next`, the last
page's `next` is empty or absent, and each page is the server's answer (valid JSON, no error) to
the request that `execute` sends for its URL, `executeURL` of the first page's URL resp. of the
previous page's `next`: that URL itself when the page size is the default 100 or the URL does
not contain `/repositories/`, otherwise that URL with `pagelen` set to the page size and its
query re-encoded.  Then `Client.execute` on the first page's URL returns, given fuel for the `N`
calls, a mapping without error whose `values` is exactly the concatenation of the pages' `values`
in page order; for `N = 1` the mapping is the single page itself.  In particular, with the
default page size this holds for every chain whose pages are served at the literal links. -/
theorem execute_linked_chain_values (env : Env) (c : Client) (method text : String)
    (pages : List StrMap) (url : String) (fuel : Nat)
    (hchain : LinkedChain env c method text (executeURL env c) url pages ∨
      (c.Pagelen = DEFAULT_PAGE_LENGTH ∧ LinkedChain env c method text Except.ok url pages))
    (hfuel : pages.length ≤ fuel) :
    ∃ r tr, execute env c method fuel url text = some (Outcome.ret (Any.map r) none, tr) ∧
      StrMap.get r "values" = Any.slice (concatValues pages) ∧
      (∀ m, pages = [m] → r = m) := by
  have hlinked : LinkedChain env c method text (executeURL env c) url pages := by
    rcases hchain with h | ⟨hdefault, h⟩
    · exact h
    · exact linkedChain_of_literal env c method text hdefault pages url h
  exact execute_chain_values env c method text pages url fuel
    (pageChain_of_linkedChain env c method text pages url hlinked) hfuel

/-- Witness of the amended C1: a client with page size 50 on the demonstration server, which
serves the first forks page at `.../forks?pagelen=50` and the second at the re-encoded link
`.../forks?page=2&pagelen=50`. -/
theorem execute_linked_chain_values_witness :
    (LinkedChain demoEnv (demoClient 50) "GET" "" (executeURL demoEnv (demoClient 50)) forksURL
        [forksPage50, forksPage2] ∨
      ((demoClient 50).Pagelen = DEFAULT_PAGE_LENGTH ∧
        LinkedChain demoEnv (demoClient 50) "GET" "" Except.ok forksURL
          [forksPage50, forksPage2])) ∧
    [forksPage50, forksPage2].length ≤ 2 ∧
    ∃ r tr, execute demoEnv (demoClient 50) "GET" 2 forksURL "" =
        some (Outcome.ret (Any.map r) none, tr) ∧
      StrMap.get r "values" = Any.slice (concatValues [forksPage50, forksPage2]) ∧
      (∀ m, [forksPage50, forksPage2] = [m] → r = m) :=
  have hchain : LinkedChain demoEnv (demoClient 50) "GET" "" (executeURL demoEnv (demoClient 50))
      forksURL [forksPage50, forksPage2] :=
    ⟨⟨forksURL50, rfl, _, rfl, rfl, _, rfl⟩, forksNext50, by decide, rfl,
      ⟨forksURL50p2, rfl, _, rfl, rfl, _, rfl⟩, Or.inl rfl⟩
  ⟨Or.inl hchain, by decide,
    execute_linked_chain_values demoEnv (demoClient 50) "GET" "" [forksPage50, forksPage2]
      forksURL 2 (Or.inl hchain) (by decide)⟩

/-- Counterexample to C2 as stated: the one-page chain made of the second forks page, which
carries `page`, `pagelen` and `size` and no `next`.  `execute` returns the page as it is, with
all three keys. -/
theorem execute_single_page_keeps_pagination_keys :
    PageChain demoEnv (demoClient 100) "GET" "" forksURL2 [forksPage2] ∧
    ∃ tr, execute demoEnv (demoClient 100) "GET" 1 forksURL2 "" =
        some (Outcome.ret (Any.map forksPage2) none, tr) ∧
      StrMap.hasKey forksPage2 "page" = true ∧ StrMap.hasKey forksPage2 "pagelen" = true ∧
      StrMap.hasKey forksPage2 "size" = true :=
  ⟨⟨⟨rfl, _, rfl⟩, Or.inl rfl⟩, _, rfl, by decide, by decide, by decide⟩

/-- **C2, amended.** For every chain of `N ≥ 2` pages the mapping returned by `Client.execute`
contains none of the keys `page`, `pagelen`, `size`, whatever the pages carried; for `N = 1`
nothing is merged and the mapping returned is the single page unchanged. -/
theorem execute_chain_strips_pagination (env : Env) (c : Client) (method text : String)
    (pages : List StrMap) (url : String) (fuel : Nat)
    (hchain : PageChain env c method text url pages) (hfuel : pages.length ≤ fuel) :
    ∃ r tr, execute env c method fuel url text = some (Outcome.ret (Any.map r) none, tr) ∧
      (2 ≤ pages.length →
        StrMap.hasKey r "page" = false ∧ StrMap.hasKey r "pagelen" = false ∧
        StrMap.hasKey r "size" = false) ∧
      (∀ m, pages = [m] → r = m) := by
  obtain ⟨r, tr, h1, -, h3, h4⟩ := execute_chain_core env c method text pages url fuel hchain hfuel
  refine ⟨r, tr, h1, ?_, h3⟩
  intro h2
  obtain ⟨m, vs, vs2, rfl⟩ := h4 h2
  exact mergedMap_no_page m vs vs2

/-- Witness of the amended C2: the two forks pages of the demonstration server. -/
theorem execute_chain_strips_pagination_witness :
    PageChain demoEnv (demoClient 100) "GET" "" forksURL [forksPage1, forksPage2] ∧
    [forksPage1, forksPage2].length ≤ 2 ∧
    ∃ r tr, execute demoEnv (demoClient 100) "GET" 2 forksURL "" =
        some (Outcome.ret (Any.map r) none, tr) ∧
      (2 ≤ [forksPage1, forksPage2].length →
        StrMap.hasKey r "page" = false ∧ StrMap.hasKey r "pagelen" = false ∧
        StrMap.hasKey r "size" = false) ∧
      (∀ m, [forksPage1, forksPage2] = [m] → r = m) :=
  have hchain : PageChain demoEnv (demoClient 100) "GET" "" forksURL [forksPage1, forksPage2] :=
    ⟨⟨rfl, _, rfl⟩, forksURL2, by decide, rfl, ⟨rfl, _, rfl⟩, Or.inl rfl⟩
  ⟨hchain, by decide,
    execute_chain_strips_pagination demoEnv (demoClient 100) "GET" "" [forksPage1, forksPage2]
      forksURL 2 hchain (by decide)⟩

/-! ## A broken continuation page -/

theorem execute_bad_page (env : Env) (c : Client) (method text url : String) (fuel : Nat)
    (hbad : BadPage env c method text url) :
    (∃ r e tr, execute env c method (fuel + 1) url text = some (Outcome.ret r (some e), tr)) ∨
    ∃ r tr, execute env c method (fuel + 1) url text = some (Outcome.ret r none, tr) ∧
      ((∀ m2, r ≠ Any.map m2) ∨ ∃ m2, r = Any.map m2 ∧ StrMap.get m2 "values" = Any.nil) := by
  unfold BadPage at hbad
  cases hp : (executePage env c method url text).1 with
  | mk r e =>
    rw [hp] at hbad
    cases e with
    | some e =>
      exact Or.inl ⟨_, e, _, execute_of_page_error env c method text fuel url r e hp⟩
    | none =>
      right
      cases r with
      | map m =>
        simp only at hbad
        exact ⟨_, _, execute_of_last env c method text fuel url m hp (Or.inr (Or.inr hbad)),
          Or.inr ⟨m, rfl, hbad⟩⟩
      | nil => exact ⟨_, _, execute_of_not_map env c method text fuel url _ hp (by simp), by simp⟩
      | bool b =>
        exact ⟨_, _, execute_of_not_map env c method text fuel url _ hp (by simp), by simp⟩
      | float64 x =>
        exact ⟨_, _, execute_of_not_map env c method text fuel url _ hp (by simp), by simp⟩
      | string x =>
        exact ⟨_, _, execute_of_not_map env c method text fuel url _ hp (by simp), by simp⟩
      | slice x =>
        exact ⟨_, _, execute_of_not_map env c method text fuel url _ hp (by simp), by simp⟩
      | bytes x =>
        exact ⟨_, _, execute_of_not_map env c method text fuel url _ hp (by simp), by simp⟩

/-- **C3.** If `execute`, starting from `url`, follows `d ≥ 1` links `next` and the page reached
by the last of them fails to fetch or parse, or is not a mapping, or is a mapping without
`values` (absent or null), then the top-level call returns a non-nil error together with a nil
result: with fuel for the `d + 1` calls it returns exactly that, and with any fuel it never
returns anything else (no partially merged envelope, no panic). -/
theorem execute_bad_page_error (env : Env) (c : Client) (method text : String)
    (url : String) (d : Nat) (hbad : FollowsToBad env c method text url d) :
    (∀ fuel, d + 1 ≤ fuel →
      ∃ e tr, execute env c method fuel url text = some (Outcome.ret Any.nil (some e), tr)) ∧
    (∀ fuel, execute env c method fuel url text = none ∨
      ∃ e tr, execute env c method fuel url text = some (Outcome.ret Any.nil (some e), tr)) := by
  induction hbad with
  | last url next hf hb =>
    obtain ⟨m, vs, hp, hn, hne, hv⟩ := hf
    have key : ∀ fuel, ∃ e tr, execute env c method (fuel + 2) url text =
        some (Outcome.ret Any.nil (some e), tr) := by
      intro fuel
      rcases execute_bad_page env c method text next fuel hb with ⟨r, e, tr, h⟩ | ⟨r, tr, h, hr⟩
      · exact ⟨e, _, execute_follow_error env c method text (fuel + 1) url next m vs hp hn hne hv
          r e tr h⟩
      · obtain ⟨e, he⟩ := execute_follow_bad env c method text (fuel + 1) url next m vs hp hn hne
          hv r tr h hr
        exact ⟨e, _, he⟩
    refine ⟨?_, ?_⟩
    · intro fuel hfuel
      obtain ⟨k, rfl⟩ : ∃ k, fuel = k + 2 := ⟨fuel - 2, by omega⟩
      exact key k
    · intro fuel
      match fuel with
      | 0 => exact Or.inl rfl
      | 1 =>
        exact Or.inl (execute_follow_none env c method text 0 url next m vs hp hn hne hv rfl)
      | k + 2 => exact Or.inr (key k)
  | more url next d hf _ ih =>
    obtain ⟨m, vs, hp, hn, hne, hv⟩ := hf
    obtain ⟨ih1, ih2⟩ := ih
    refine ⟨?_, ?_⟩
    · intro fuel hfuel
      obtain ⟨k, rfl⟩ : ∃ k, fuel = k + 1 := ⟨fuel - 1, by omega⟩
      obtain ⟨e, tr, h⟩ := ih1 k (by omega)
      exact ⟨e, _, execute_follow_error env c method text k url next m vs hp hn hne hv _ e tr h⟩
    · intro fuel
      match fuel with
      | 0 => exact Or.inl rfl
      | k + 1 =>
        rcases ih2 k with h | ⟨e, tr, h⟩
        · exact Or.inl (execute_follow_none env c method text k url next m vs hp hn hne hv h)
        · exact Or.inr ⟨e, _,
            execute_follow_error env c method text k url next m vs hp hn hne hv _ e tr h⟩

/-- Witness of C3: the second watchers page of the demonstration server has no `values`. -/
theorem execute_bad_page_error_witness :
    FollowsToBad demoEnv (demoClient 100) "GET" "" watchersURL 1 ∧
    (∀ fuel, 1 + 1 ≤ fuel →
      ∃ e tr, execute demoEnv (demoClient 100) "GET" fuel watchersURL "" =
        some (Outcome.ret Any.nil (some e), tr)) ∧
    (∀ fuel, execute demoEnv (demoClient 100) "GET" fuel watchersURL "" = none ∨
      ∃ e tr, execute demoEnv (demoClient 100) "GET" fuel watchersURL "" =
        some (Outcome.ret Any.nil (some e), tr)) :=
  have hbad : FollowsToBad demoEnv (demoClient 100) "GET" "" watchersURL 1 :=
    FollowsToBad.last watchersURL watchersURL2
      ⟨watchersPage1, _, rfl, rfl, by decide, rfl⟩ rfl
  ⟨hbad, execute_bad_page_error demoEnv (demoClient 100) "GET" "" watchersURL 1 hbad⟩

/-! ## The URL of the requests -/

theorem sentRequests_append (a b : List Event) :
    sentRequests (a ++ b) = sentRequests a ++ sentRequests b := by
  induction a with
  | nil => rfl
  | cons ev rest ih => cases ev <;> simp [sentRequests, ih]

theorem sentURLs_eq_map (tr : List Event) :
    sentURLs tr = (sentRequests tr).map (fun req => req.URL) := by
  induction tr with
  | nil => rfl
  | cons ev rest ih => cases ev <;> simp [sentURLs, sentRequests, ih]

theorem doRawRequest_first_request (env : Env) (req : Request) (emptyResponse : Bool) :
    ∃ tr, (doRawRequest env req emptyResponse).2 = Event.send req :: tr := by
  unfold doRawRequest
  cases env.Do req with
  | error err => exact ⟨_, rfl⟩
  | ok resp =>
    simp only
    split
    · exact ⟨_, rfl⟩
    · split
      · exact ⟨_, rfl⟩
      · split <;> exact ⟨_, rfl⟩

theorem doRequest_trace (env : Env) (req : Request) (emptyResponse : Bool) :
    (doRequest env req emptyResponse).2 = (doRawRequest env req emptyResponse).2 := by
  unfold doRequest
  rcases hq : doRawRequest env req emptyResponse with ⟨⟨b, e⟩, tr⟩
  cases e with
  | some e => rfl
  | none =>
    simp only
    cases env.Unmarshal b <;> rfl

theorem executePage_first_request (env : Env) (c : Client) (method urlStr text : String) :
    (sentRequests (executePage env c method urlStr text).2).head? =
      (executeRequest env c method urlStr text).toOption := by
  unfold executePage
  cases hreq : executeRequest env c method urlStr text with
  | error err => rfl
  | ok req =>
    have h1 := doRequest_trace env req false
    obtain ⟨tr, h2⟩ := doRawRequest_first_request env req false
    rcases hq : doRequest env req false with ⟨⟨r, e⟩, tr0⟩
    rw [hq] at h1
    simp only at h1
    subst h1
    cases e <;> simp [hq, h2, sentRequests, Except.toOption]

theorem execute_trace_prefix (env : Env) (c : Client) (method text url : String) (fuel : Nat)
    (out : Outcome Any) (tr : List Event)
    (h : execute env c method (fuel + 1) url text = some (out, tr)) :
    ∃ tr2, tr = (executePage env c method url text).2 ++ tr2 := by
  rcases hq : executePage env c method url text with ⟨⟨r, e⟩, tr0⟩
  simp only
  cases e with
  | some e =>
    simp [execute, hq] at h
    exact ⟨[], by simp [h.2]⟩
  | none =>
    cases r with
    | map m =>
      simp only [execute, hq] at h
      repeat' split at h
      all_goals first
        | (simp only [Option.some.injEq, Prod.mk.injEq] at h
           obtain ⟨-, rfl⟩ := h
           first | exact ⟨_, rfl⟩ | exact ⟨[], (List.append_nil _).symm⟩)
        | (simp at h)
    | _ =>
      simp [execute, hq] at h
      exact ⟨[], by simp [h.2]⟩

theorem execute_follow_trace (env : Env) (c : Client) (method text url next : String) (fuel : Nat)
    (out : Outcome Any) (tr : List Event)
    (hf : Follows env c method text url next)
    (h : execute env c method (fuel + 1) url text = some (out, tr)) :
    ∃ out2 tr2, execute env c method fuel next text = some (out2, tr2) ∧
      tr = (executePage env c method url text).2 ++ tr2 := by
  obtain ⟨m, vs, hp, hn, hne, hv⟩ := hf
  rcases hq : executePage env c method url text with ⟨⟨r, e⟩, tr0⟩
  rw [hq] at hp
  simp only [Prod.mk.injEq] at hp
  obtain ⟨rfl, rfl⟩ := hp
  simp only [execute, hq, hn, hv, Any.isNil, hne] at h
  simp only [Bool.or_self, Bool.false_eq_true, if_false] at h
  repeat' split at h
  all_goals first
    | (simp only [Option.some.injEq, Prod.mk.injEq] at h
       obtain ⟨-, rfl⟩ := h
       exact ⟨_, _, by assumption, rfl⟩)
    | (simp at h)

theorem execute_first_request (env : Env) (c : Client) (method text url : String) (fuel : Nat)
    (out : Outcome Any) (tr : List Event)
    (h : execute env c method (fuel + 1) url text = some (out, tr)) :
    (sentRequests tr).head? = (executeRequest env c method url text).toOption := by
  have hfirst := executePage_first_request env c method url text
  cases hreq : executeRequest env c method url text with
  | error err =>
    have hp : executePage env c method url text = ((Any.nil, some err), []) := by
      simp [executePage, hreq]
    have h2 := execute_of_page_error env c method text fuel url Any.nil err (by rw [hp])
    rw [h2, hp] at h
    simp only [Option.some.injEq, Prod.mk.injEq] at h
    obtain ⟨-, rfl⟩ := h
    rfl
  | ok req =>
    rw [hreq] at hfirst
    obtain ⟨tr2, rfl⟩ := execute_trace_prefix env c method text url fuel out tr h
    rw [sentRequests_append]
    cases hs : sentRequests (executePage env c method url text).2 with
    | nil => rw [hs] at hfirst; simp [Except.toOption] at hfirst
    | cons a rest => rw [hs] at hfirst; simpa using hfirst

theorem authenticateRequest_URL (env : Env) (c : Client) (req : Request) :
    (authenticateRequest env c req).URL = req.URL := by
  unfold authenticateRequest SetBasicAuth
  simp only
  split <;> split <;> (try split) <;> rfl

theorem newAuthenticatedRequest_URL (env : Env) (c : Client) (method urlStr text : String)
    (req : Request) (h : newAuthenticatedRequest env c method urlStr text = Except.ok req) :
    req.URL = urlStr := by
  unfold newAuthenticatedRequest at h
  cases hnr : env.NewRequestErr method urlStr with
  | some err => simp [hnr] at h
  | none =>
    simp only [hnr] at h
    injection h with h
    rw [← h, authenticateRequest_URL]
    split <;> rfl

/-- The URL of the request that `execute` builds: the caller's URL when the page size is the
default or the URL is not collection-style, else the caller's URL with `pagelen` set in its
query and the query re-encoded. -/
theorem executeRequest_url (env : Env) (c : Client) (method urlStr text : String) (req : Request)
    (h : executeRequest env c method urlStr text = Except.ok req) :
    (c.Pagelen = DEFAULT_PAGE_LENGTH ∨ strings_Contains urlStr "/repositories/" = false →
      req.URL = urlStr) ∧
    (c.Pagelen ≠ DEFAULT_PAGE_LENGTH → strings_Contains urlStr "/repositories/" = true →
      ∃ urlObj, env.Parse urlStr = Except.ok urlObj ∧
        req.URL = setPagelen env urlObj c.Pagelen) := by
  unfold executeRequest at h
  refine ⟨?_, ?_⟩
  · intro hcase
    have hrew : executeURL env c urlStr = Except.ok urlStr := by
      unfold executeURL
      rcases hcase with hc | hc <;> simp [hc]
    rw [hrew] at h
    exact newAuthenticatedRequest_URL env c method urlStr text req h
  · intro hp hc
    cases hparse : env.Parse urlStr with
    | error err => simp [executeURL, hc, hp, hparse] at h
    | ok urlObj =>
      refine ⟨urlObj, rfl, ?_⟩
      have hrew : executeURL env c urlStr = Except.ok (setPagelen env urlObj c.Pagelen) := by
        simp [executeURL, hc, hp, hparse]
      rw [hrew] at h
      exact newAuthenticatedRequest_URL env c method _ text req h

theorem values_lookup_map_self (q : Values) (k : String) (f : List String → List String) :
    (q.map (fun kv => if kv.1 == k then (kv.1, f kv.2) else kv)).lookup k =
      (q.lookup k).map f := by
  induction q with
  | nil => rfl
  | cons kv rest ih =>
    obtain ⟨a, b⟩ := kv
    by_cases hak : a = k
    · subst hak
      simp [List.lookup_cons]
    · have h1 : (k == a) = false := by simpa using (Ne.symm hak)
      have h2 : (a == k) = false := by simpa using hak
      rw [List.map_cons]
      simp only [h2, Bool.false_eq_true, if_false]
      rw [List.lookup_cons, List.lookup_cons, h1]
      exact ih

theorem values_lookup_map_ne (q : Values) (k k2 : String) (f : List String → List String)
    (h : k2 ≠ k) :
    (q.map (fun kv => if kv.1 == k then (kv.1, f kv.2) else kv)).lookup k2 = q.lookup k2 := by
  induction q with
  | nil => rfl
  | cons kv rest ih =>
    obtain ⟨a, b⟩ := kv
    rw [List.map_cons]
    by_cases hak : a = k
    · subst hak
      have h1 : (k2 == a) = false := by simpa using h
      simp only [beq_self_eq_true, if_true]
      rw [List.lookup_cons, List.lookup_cons, h1]
      exact ih
    · have h2 : (a == k) = false := by simpa using hak
      simp only [h2, Bool.false_eq_true, if_false]
      rw [List.lookup_cons, List.lookup_cons, ih]

theorem values_lookup_append (q : Values) (k k2 : String) (l : List String) :
    (q ++ [(k, l)]).lookup k2 =
      match q.lookup k2 with
      | some x => some x
      | none => if k2 = k then some l else none := by
  induction q with
  | nil =>
    by_cases h : k2 = k
    · subst h; simp [List.lookup_cons]
    · have h1 : (k2 == k) = false := by simpa using h
      simp [List.lookup_cons, h1, h]
  | cons kv rest ih =>
    obtain ⟨a, b⟩ := kv
    by_cases hk2 : k2 = a
    · subst hk2
      simp [List.lookup_cons]
    · have h1 : (k2 == a) = false := by simpa using hk2
      rw [List.cons_append, List.lookup_cons, List.lookup_cons, h1]
      exact ih

/-- After `Set`, the key holds exactly the value set. -/
theorem Values.get_Set_self (q : Values) (k v : String) :
    Values.get (Values.Set q k v) k = [v] := by
  unfold Values.get Values.Set
  cases hl : q.lookup k with
  | none =>
    simp only [Option.isSome_none, Bool.false_eq_true, if_false]
    rw [values_lookup_append, hl]
    simp
  | some l =>
    simp only [Option.isSome_some, if_true]
    rw [values_lookup_map_self q k (fun _ => [v]), hl]
    rfl

/-- `Set` leaves every other key as it was. -/
theorem Values.get_Set_ne (q : Values) (k v k2 : String) (h : k2 ≠ k) :
    Values.get (Values.Set q k v) k2 = Values.get q k2 := by
  unfold Values.get Values.Set
  cases hl : (q.lookup k).isSome with
  | false =>
    simp only [Bool.false_eq_true, if_false]
    rw [values_lookup_append]
    cases q.lookup k2 <;> simp [h]
  | true =>
    simp only [if_true]
    rw [values_lookup_map_ne q k k2 (fun _ => [v]) h]

/-- Counterexample to C4 as stated: a client with page size 50 on the demonstration server.  The
first forks page carries the link `next` = `.../forks?pagelen=50&page=2`; the URL requested for
the following page is `.../forks?page=2&pagelen=50`, the link with its query re-encoded. -/
theorem execute_next_url_rewritten :
    Follows demoEnv (demoClient 50) "GET" "" forksURL forksNext50 ∧
    ∃ out tr, execute demoEnv (demoClient 50) "GET" 2 forksURL "" = some (out, tr) ∧
      sentURLs tr = [forksURL50, forksURL50p2] ∧ forksURL50p2 ≠ forksNext50 :=
  ⟨⟨forksPage50, _, rfl, rfl, by decide, rfl⟩, _, _, rfl, by decide, by decide⟩

/-- **C4, amended.** For every page whose `next` is a non-empty URL string that `execute`
follows, the following page is requested by `execute` itself called on that string, so the
link passes through the same rewriting as an initial URL: the request sent has exactly the `next`
string as its URL when the client's page size is the default 100 or the link does not contain
`/repositories/`, and otherwise the link with `pagelen` set to the page size in its query and the
query re-encoded. -/
theorem execute_next_request (env : Env) (c : Client) (method text url next : String)
    (hf : Follows env c method text url next) :
    (∀ fuel out tr, execute env c method (fuel + 1) url text = some (out, tr) →
      ∃ out2 tr2, execute env c method fuel next text = some (out2, tr2) ∧
        tr = (executePage env c method url text).2 ++ tr2 ∧
        (sentRequests tr2).head? = (executeRequest env c method next text).toOption) ∧
    (∀ req, executeRequest env c method next text = Except.ok req →
      (c.Pagelen = DEFAULT_PAGE_LENGTH ∨ strings_Contains next "/repositories/" = false →
        req.URL = next) ∧
      (c.Pagelen ≠ DEFAULT_PAGE_LENGTH → strings_Contains next "/repositories/" = true →
        ∃ urlObj, env.Parse next = Except.ok urlObj ∧
          req.URL = setPagelen env urlObj c.Pagelen)) := by
  refine ⟨?_, fun req hreq => executeRequest_url env c method next text req hreq⟩
  intro fuel out tr h
  obtain ⟨out2, tr2, h2, rfl⟩ := execute_follow_trace env c method text url next fuel out tr hf h
  refine ⟨out2, tr2, h2, rfl, ?_⟩
  cases fuel with
  | zero => simp [execute] at h2
  | succ k => exact execute_first_request env c method text next k out2 tr2 h2

/-- Witness of the amended C4: the first forks page of the demonstration server, page size 50. -/
theorem execute_next_request_witness :
    Follows demoEnv (demoClient 50) "GET" "" forksURL forksNext50 ∧
    (∀ fuel out tr, execute demoEnv (demoClient 50) "GET" (fuel + 1) forksURL "" = some (out, tr) →
      ∃ out2 tr2, execute demoEnv (demoClient 50) "GET" fuel forksNext50 "" = some (out2, tr2) ∧
        tr = (executePage demoEnv (demoClient 50) "GET" forksURL "").2 ++ tr2 ∧
        (sentRequests tr2).head? =
          (executeRequest demoEnv (demoClient 50) "GET" forksNext50 "").toOption) ∧
    (∀ req, executeRequest demoEnv (demoClient 50) "GET" forksNext50 "" = Except.ok req →
      ((demoClient 50).Pagelen = DEFAULT_PAGE_LENGTH ∨
          strings_Contains forksNext50 "/repositories/" = false → req.URL = forksNext50) ∧
      ((demoClient 50).Pagelen ≠ DEFAULT_PAGE_LENGTH →
        strings_Contains forksNext50 "/repositories/" = true →
        ∃ urlObj, demoEnv.Parse forksNext50 = Except.ok urlObj ∧
          req.URL = setPagelen demoEnv urlObj (demoClient 50).Pagelen)) :=
  have hf : Follows demoEnv (demoClient 50) "GET" "" forksURL forksNext50 :=
    ⟨forksPage50, _, rfl, rfl, by decide, rfl⟩
  ⟨hf, execute_next_request demoEnv (demoClient 50) "GET" "" forksURL forksNext50 hf⟩

/-- **C5.** For every method, URL and body passed to `Client.execute` as the initial request,
the first request sent, `req`, has the caller's URL unchanged when the client's `Pagelen` is the
default 100 or the URL does not contain `/repositories/`; otherwise its URL is the caller's URL
with the query replaced by the encoding of a query `q` in which `pagelen` is the decimal rendering
of `Pagelen` and every other parameter has the value it has in the caller's URL.  Every run of
`execute` that returns starts by sending this request. -/
theorem execute_initial_request_url (env : Env) (c : Client) (method urlStr text : String)
    (req : Request)
    (hreq : (sentRequests (executePage env c method urlStr text).2).head? = some req) :
    (c.Pagelen = DEFAULT_PAGE_LENGTH ∨ strings_Contains urlStr "/repositories/" = false →
      req.URL = urlStr) ∧
    (c.Pagelen ≠ DEFAULT_PAGE_LENGTH → strings_Contains urlStr "/repositories/" = true →
      ∃ urlObj q, env.Parse urlStr = Except.ok urlObj ∧
        req.URL = env.URLString (URL.mk urlObj.Scheme urlObj.Host urlObj.Path (env.Encode q)
          urlObj.Fragment) ∧
        Values.get q "pagelen" = [strconv_FormatUint c.Pagelen] ∧
        ∀ k, k ≠ "pagelen" → Values.get q k = Values.get (env.ParseQuery urlObj.RawQuery) k) ∧
    (∀ fuel out tr, execute env c method (fuel + 1) urlStr text = some (out, tr) →
      (sentRequests tr).head? = some req) := by
  rw [executePage_first_request] at hreq
  have hok : executeRequest env c method urlStr text = Except.ok req := by
    cases h : executeRequest env c method urlStr text with
    | error err => rw [h] at hreq; simp [Except.toOption] at hreq
    | ok r => rw [h] at hreq; simp [Except.toOption] at hreq; rw [hreq]
  obtain ⟨h1, h2⟩ := executeRequest_url env c method urlStr text req hok
  refine ⟨h1, ?_, ?_⟩
  · intro hp hc
    obtain ⟨urlObj, hparse, hurl⟩ := h2 hp hc
    exact ⟨urlObj, _, hparse, hurl, Values.get_Set_self _ _ _,
      fun k hk => Values.get_Set_ne _ _ _ k hk⟩
  · intro fuel out tr h
    rw [execute_first_request env c method text urlStr fuel out tr h, hok]
    rfl

/-- Witness of C5: the demonstration client with page size 50 asks for the forks of a repository;
the request goes to `.../forks?pagelen=50`. -/
theorem execute_initial_request_url_witness :
    (sentRequests (executePage demoEnv (demoClient 50) "GET" forksURL "").2).head? =
      some forksRequest50 ∧
    forksRequest50.URL = "https://api.bitbucket.org/2.0/repositories/o/r/forks?pagelen=50" ∧
    ((demoClient 50).Pagelen = DEFAULT_PAGE_LENGTH ∨
        strings_Contains forksURL "/repositories/" = false → forksRequest50.URL = forksURL) ∧
    ((demoClient 50).Pagelen ≠ DEFAULT_PAGE_LENGTH →
      strings_Contains forksURL "/repositories/" = true →
      ∃ urlObj q, demoEnv.Parse forksURL = Except.ok urlObj ∧
        forksRequest50.URL = demoEnv.URLString (URL.mk urlObj.Scheme urlObj.Host urlObj.Path
          (demoEnv.Encode q) urlObj.Fragment) ∧
        Values.get q "pagelen" = [strconv_FormatUint (demoClient 50).Pagelen] ∧
        ∀ k, k ≠ "pagelen" →
          Values.get q k = Values.get (demoEnv.ParseQuery urlObj.RawQuery) k) ∧
    (∀ fuel out tr, execute demoEnv (demoClient 50) "GET" (fuel + 1) forksURL "" = some (out, tr) →
      (sentRequests tr).head? = some forksRequest50) :=
  ⟨rfl, rfl, execute_initial_request_url demoEnv (demoClient 50) "GET" forksURL "" forksRequest50 rfl⟩

/-- **C6, at the failing input.** A client with the default page size 100 calls `executeRaw` on
the URL built by `ListBranches` with ten branches per page, and on the URL built by `GetFileBlob`:
the request goes to `...?pagelen=100` in both cases, the caller's `pagelen=10` overwritten in the
first and a `pagelen` parameter added in the second. -/
theorem executeRaw_sets_pagelen_at_default :
    (demoClient 100).Pagelen = DEFAULT_PAGE_LENGTH ∧
    sentURLs (executeRaw demoEnv (demoClient 100) "GET" branchesURL "").2 =
      ["https://api.bitbucket.org/2.0/repositories/o/r/refs/branches?pagelen=100"] ∧
    sentURLs (executeRaw demoEnv (demoClient 100) "GET" blobURL "").2 =
      ["https://api.bitbucket.org/2.0/repositories/o/r/src/master/README.md?pagelen=100"] := by
  decide

/-! ## Authentication -/

theorem Header.Get_Set_self (h : Header) (k v : String) :
    Header.Get (Header.Set h k v) k = some v := by
  simp [Header.Get, Header.Set, List.lookup_cons]

theorem Header.Get_Set_ne (h : Header) (k v k2 : String) (hk : k2 ≠ k) :
    Header.Get (Header.Set h k v) k2 = Header.Get h k2 := by
  have h1 : (k2 == k) = false := by simpa using hk
  unfold Header.Get Header.Set
  rw [List.lookup_cons, h1]
  exact lookup_filter_ne h k k2 hk

theorem Header.count_Set_self (h : Header) (k v : String) :
    Header.count (Header.Set h k v) k = 1 := by
  have hnil : (h.filter (fun kv => !(kv.1 == k))).filter (fun kv => kv.1 == k) = [] := by
    rw [List.filter_filter]
    apply List.filter_eq_nil_iff.mpr
    intro a _
    cases (a.1 == k) <;> simp
  simp [Header.count, Header.Set, List.filter_cons, hnil]

theorem authenticateRequest_Header (env : Env) (c : Client) (req : Request) :
    (authenticateRequest env c req).Header =
      if c.Auth.user ≠ "" ∧ c.Auth.password ≠ "" then
        Header.Set
          (if c.Auth.bearerToken ≠ "" then
            Header.Set req.Header "Authorization" ("Bearer " ++ c.Auth.bearerToken)
          else req.Header)
          "Authorization" ("Basic " ++ env.Base64 (c.Auth.user ++ ":" ++ c.Auth.password))
      else if c.Auth.token.Valid = true then
        Header.Set
          (if c.Auth.bearerToken ≠ "" then
            Header.Set req.Header "Authorization" ("Bearer " ++ c.Auth.bearerToken)
          else req.Header)
          "Authorization" c.Auth.token.AuthHeader
      else if c.Auth.bearerToken ≠ "" then
        Header.Set req.Header "Authorization" ("Bearer " ++ c.Auth.bearerToken)
      else req.Header := by
  unfold authenticateRequest SetBasicAuth
  simp only
  split <;> split <;> (try split) <;> rfl

/-- Counterexample to C7 as stated: a client holding the bearer token `secret` together with
user `u` and password `p` gets basic auth, and one holding it together with a valid OAuth2 token
gets that token's header; in neither case is the header `Bearer secret`. -/
theorem authenticateRequest_bearer_overridden :
    mixedClient.Auth.bearerToken ≠ "" ∧
    Header.Get (authenticateRequest demoEnv mixedClient plainRequest).Header "Authorization" =
      some "Basic dTpw" ∧
    tokenClient.Auth.bearerToken ≠ "" ∧
    Header.Get (authenticateRequest demoEnv tokenClient plainRequest).Header "Authorization" =
      some "Bearer oauth-access" := by
  decide

/-- **C7, amended.** For every credential set held by the client, `authenticateRequest` leaves
the outgoing request with one `Authorization` header chosen by the precedence basic auth, then
OAuth2 token, then bearer token: if user and password are both non-empty it is basic auth (also
when a bearer token is set); otherwise if the OAuth2 token is valid it is that token's header
(also when a bearer token is set); otherwise if the bearer token is non-empty it is `Bearer `
followed by the token; otherwise the headers are those of the incoming request.  No header other
than `Authorization` is changed, and neither are the method, the URL and the body. -/
theorem authenticateRequest_precedence (env : Env) (c : Client) (req : Request) :
    (c.Auth.user ≠ "" ∧ c.Auth.password ≠ "" →
      Header.Get (authenticateRequest env c req).Header "Authorization" =
        some ("Basic " ++ env.Base64 (c.Auth.user ++ ":" ++ c.Auth.password)) ∧
      Header.count (authenticateRequest env c req).Header "Authorization" = 1) ∧
    (¬(c.Auth.user ≠ "" ∧ c.Auth.password ≠ "") → c.Auth.token.Valid = true →
      Header.Get (authenticateRequest env c req).Header "Authorization" =
        some c.Auth.token.AuthHeader ∧
      Header.count (authenticateRequest env c req).Header "Authorization" = 1) ∧
    (¬(c.Auth.user ≠ "" ∧ c.Auth.password ≠ "") → c.Auth.token.Valid = false →
      c.Auth.bearerToken ≠ "" →
      Header.Get (authenticateRequest env c req).Header "Authorization" =
        some ("Bearer " ++ c.Auth.bearerToken) ∧
      Header.count (authenticateRequest env c req).Header "Authorization" = 1) ∧
    (¬(c.Auth.user ≠ "" ∧ c.Auth.password ≠ "") → c.Auth.token.Valid = false →
      c.Auth.bearerToken = "" → (authenticateRequest env c req).Header = req.Header) ∧
    (∀ k, k ≠ "Authorization" →
      Header.Get (authenticateRequest env c req).Header k = Header.Get req.Header k) ∧
    (authenticateRequest env c req).Method = req.Method ∧
    (authenticateRequest env c req).URL = req.URL ∧
    (authenticateRequest env c req).Body = req.Body := by
  have hH := authenticateRequest_Header env c req
  refine ⟨?_, ?_, ?_, ?_, ?_, ?_, authenticateRequest_URL env c req, ?_⟩
  · intro hb
    rw [hH, if_pos hb]
    exact ⟨Header.Get_Set_self _ _ _, Header.count_Set_self _ _ _⟩
  · intro hnb hv
    rw [hH, if_neg hnb, if_pos hv]
    exact ⟨Header.Get_Set_self _ _ _, Header.count_Set_self _ _ _⟩
  · intro hnb hv hbr
    have hv2 : ¬ (c.Auth.token.Valid = true) := by simp [hv]
    rw [hH, if_neg hnb, if_neg hv2, if_pos hbr]
    exact ⟨Header.Get_Set_self _ _ _, Header.count_Set_self _ _ _⟩
  · intro hnb hv hbr
    have hv2 : ¬ (c.Auth.token.Valid = true) := by simp [hv]
    have hbr2 : ¬ (c.Auth.bearerToken ≠ "") := by simp [hbr]
    rw [hH, if_neg hnb, if_neg hv2, if_neg hbr2]
  · intro k hk
    rw [hH]
    split
    · split
      · rw [Header.Get_Set_ne _ _ _ k hk, Header.Get_Set_ne _ _ _ k hk]
      · rw [Header.Get_Set_ne _ _ _ k hk]
    · split
      · split
        · rw [Header.Get_Set_ne _ _ _ k hk, Header.Get_Set_ne _ _ _ k hk]
        · rw [Header.Get_Set_ne _ _ _ k hk]
      · split
        · rw [Header.Get_Set_ne _ _ _ k hk]
        · rfl
  · unfold authenticateRequest SetBasicAuth
    simp only
    split <;> split <;> (try split) <;> rfl
  · unfold authenticateRequest SetBasicAuth
    simp only
    split <;> split <;> (try split) <;> rfl

/-! ## Typed decoders -/

/-- On a mapping marked `type: "error"` the decoders that test the marker return the domain error
and no entity. -/
theorem decode_error_envelope (ms : Mapstructure) (m : StrMap)
    (h : (StrMap.get m "type").eqString "error" = true) :
    decodeRepository ms (Any.map m) = Outcome.ret none (some (DecodeError m)) ∧
    decodeRepositoryFiles ms (Any.map m) = Outcome.ret [] (some (DecodeError m)) ∧
    decodePipelineRepository ms (Any.map m) = Outcome.ret none (some (DecodeError m)) ∧
    decodePipelineVariableRepository ms (Any.map m) = Outcome.ret none (some (DecodeError m)) ∧
    decodePipelineKeyPairRepository ms (Any.map m) = Outcome.ret none (some (DecodeError m)) := by
  simp [decodeRepository, decodeRepositoryFiles, decodePipelineRepository,
    decodePipelineVariableRepository, decodePipelineKeyPairRepository, h]

/-- **C8, at the failing input.** `decodeRepositoryBranches` does not test the error marker.  On
the bytes of an error envelope as the API sends it (`type: "error"`, no `values`) the type
assertion of repository.go:360 fails and the call panics instead of returning an error; on an
error envelope that carries an empty `values` it returns a zero-valued `RepositoryBranches` with
a nil error.  The sibling `decodeRepository` returns the domain error on the same mapping. -/
theorem decodeRepositoryBranches_ignores_error_marker :
    (StrMap.get errorEnvelope "type").eqString "error" = true ∧
    decodeRepositoryBranches demoEnv demoMapstructure (Any.bytes (some errorBody)) =
      Outcome.panic "interface conversion: interface \x7b\x7d is nil, not []interface \x7b\x7d" ∧
    (StrMap.get errorEnvelopeWithValues "type").eqString "error" = true ∧
    decodeRepositoryBranches demoEnv demoMapstructure (Any.bytes (some errorBodyWithValues)) =
      Outcome.ret (some { Page := 0, Pagelen := 0, Size := 0, Next := "", Branches := [] }) none ∧
    decodeRepository demoMapstructure (Any.map errorEnvelope) =
      Outcome.ret none (some (DecodeError errorEnvelope)) :=
  ⟨by decide, rfl, by decide, rfl, rfl⟩

theorem decodeBranchEntries_acc (ms : Mapstructure) (es : List Any) (acc : List RepositoryBranch) :
    es.foldl
      (fun branches branchEntry =>
        match ms.toRepositoryBranch branchEntry with
        | Except.ok branch => branches ++ [branch]
        | Except.error _ => branches)
      acc = acc ++ es.filterMap (fun e => (ms.toRepositoryBranch e).toOption) := by
  induction es generalizing acc with
  | nil => simp
  | cons e rest ih =>
    rw [List.foldl_cons, ih]
    cases h : ms.toRepositoryBranch e <;> simp [List.filterMap_cons, h, Except.toOption]

theorem decodeBranchEntries_eq (ms : Mapstructure) (es : List Any) :
    decodeBranchEntries ms es = es.filterMap (fun e => (ms.toRepositoryBranch e).toOption) := by
  unfold decodeBranchEntries
  rw [decodeBranchEntries_acc]
  rfl

theorem decodeValues_map {α : Type} (f : Any → Except GoError α) (es : List Any) :
    decodeValues (es.map f) = es.filterMap (fun e => (f e).toOption) := by
  induction es with
  | nil => rfl
  | cons e rest ih =>
    cases h : f e <;> simp [decodeValues, List.filterMap_cons, h, Except.toOption, ih]

theorem decodeErrors_eq_nil {α : Type} (f : Any → Except GoError α) (es : List Any) :
    decodeErrors (es.map f) = [] ↔ ∀ e ∈ es, ((f e).toOption).isSome = true := by
  induction es with
  | nil => simp [decodeErrors]
  | cons e rest ih =>
    cases h : f e <;> simp [decodeErrors, h, Except.toOption, ih]

/-- Counterexample to C10 as stated: a file listing whose first element is not a mapping and
whose second element maps to a file.  `decodeRepositoryFiles` returns the decode error and no
file, instead of the second file with a nil error. -/
theorem decodeRepositoryFiles_aborts_on_bad_element :
    StrMap.get filesEnvelope "values" =
      Any.slice [Any.string "x", Any.map [("path", Any.string "README.md")]] ∧
    demoMapstructure.toRepositoryFile (Any.string "x") =
      Except.error (GoError.text "expected a map") ∧
    demoMapstructure.toRepositoryFile (Any.map [("path", Any.string "README.md")]) =
      Except.ok (fileAt "README.md") ∧
    decodeRepositoryFiles demoMapstructure (Any.map filesEnvelope) =
      Outcome.ret [] (some (GoError.text "1 error(s) decoding")) :=
  ⟨rfl, rfl, rfl, rfl⟩

/-- **C10, amended.** For every collection envelope whose `values` is a sequence `es`:
`decodeRepositoryBranches` maps each element independently and skips the elements whose mapping
fails, so the branches returned are, in the original order, exactly the images of the elements
that map successfully, with a nil error even when some element fails; `decodeRepositoryFiles`
(on an envelope not marked `type: "error"`) hands the whole sequence to one `mapstructure.Decode`,
so it returns the images of all elements in order with a nil error when every element maps, and
the decode error with no file when some element fails to map. -/
theorem decode_sequence_elements (env : Env) (ms : Mapstructure) (es : List Any) :
    (∀ data m, unmarshalMap env data = Except.ok m → StrMap.get m "values" = Any.slice es →
      ∃ rb, decodeRepositoryBranches env ms (Any.bytes data) = Outcome.ret (some rb) none ∧
        rb.Branches = es.filterMap (fun e => (ms.toRepositoryBranch e).toOption)) ∧
    (∀ m, (StrMap.get m "type").eqString "error" = false → StrMap.get m "values" = Any.slice es →
      ((∀ e ∈ es, ((ms.toRepositoryFile e).toOption).isSome = true) →
        decodeRepositoryFiles ms (Any.map m) =
          Outcome.ret (es.filterMap (fun e => (ms.toRepositoryFile e).toOption)) none) ∧
      ((∃ e ∈ es, ((ms.toRepositoryFile e).toOption).isSome = false) →
        ∃ err, decodeRepositoryFiles ms (Any.map m) = Outcome.ret [] (some err))) := by
  refine ⟨?_, ?_⟩
  · intro data m hm hv
    refine ⟨{ Page := floatField (StrMap.get m "page"),
               Pagelen := floatField (StrMap.get m "pagelen"),
               Size := floatField (StrMap.get m "size"),
               Next := stringField (StrMap.get m "next"),
               Branches := decodeBranchEntries ms es }, ?_, decodeBranchEntries_eq ms es⟩
    simp [decodeRepositoryBranches, hm, hv]
  · intro m ht hv
    refine ⟨?_, ?_⟩
    · intro hall
      have hnil := (decodeErrors_eq_nil ms.toRepositoryFile es).mpr hall
      simp [decodeRepositoryFiles, ht, hv, Mapstructure.decodeSlice, hnil, decodeValues_map]
    · intro hex
      have hne : decodeErrors (es.map ms.toRepositoryFile) ≠ [] := by
        intro hnil
        obtain ⟨e, he, hf⟩ := hex
        have := (decodeErrors_eq_nil ms.toRepositoryFile es).mp hnil e he
        rw [hf] at this
        exact absurd this (by simp)
      refine ⟨ms.joinErrors (decodeErrors (es.map ms.toRepositoryFile)), ?_⟩
      simp [decodeRepositoryFiles, ht, hv, Mapstructure.decodeSlice, hne]

/-- Witness of the amended C10: the branch listing and the file listing of the demonstrations,
each with an element that is not a mapping. -/
theorem decode_sequence_elements_witness :
    unmarshalMap demoEnv (some branchesBody) = Except.ok branchesEnvelope ∧
    (∃ rb, decodeRepositoryBranches demoEnv demoMapstructure (Any.bytes (some branchesBody)) =
        Outcome.ret (some rb) none ∧
      rb.Branches = [branchNamed "master", branchNamed "develop"]) ∧
    ∃ err, decodeRepositoryFiles demoMapstructure (Any.map filesEnvelope) =
      Outcome.ret [] (some err) :=
  have h := decode_sequence_elements demoEnv demoMapstructure
    [Any.map [("name", Any.string "master")], Any.string "x",
      Any.map [("name", Any.string "develop")]]
  have h2 := decode_sequence_elements demoEnv demoMapstructure
    [Any.string "x", Any.map [("path", Any.string "README.md")]]
  ⟨rfl, h.1 (some branchesBody) branchesEnvelope rfl rfl,
    (h2.2 filesEnvelope (by decide) rfl).2 ⟨Any.string "x", by simp, rfl⟩⟩

/-! ## Transport -/

/-- A status other than 200 and 201: the bytes are nil, the error is `fmt.Errorf(resp.Status)`,
the body is closed without being read, and `doRequest` returns the same error with a nil result
whatever the JSON decoder is. -/
theorem doRawRequest_bad_status (env : Env) (req : Request) (emptyResponse : Bool)
    (resp : Response) (hdo : env.Do req = Except.ok resp)
    (hs : resp.StatusCode ≠ 200 ∧ resp.StatusCode ≠ 201) :
    (doRawRequest env req emptyResponse).1 =
      (none, some (GoError.text (env.Errorf resp.Status))) ∧
    Event.readAll ∉ (doRawRequest env req emptyResponse).2 ∧
    (doRequest env req emptyResponse).1 =
      (Any.nil, some (GoError.text (env.Errorf resp.Status))) ∧
    ∀ unmarshal, doRequest { env with Unmarshal := unmarshal } req emptyResponse =
      doRequest env req emptyResponse := by
  have hraw : doRawRequest env req emptyResponse =
      ((none, some (GoError.text (env.Errorf resp.Status))),
        Event.send req :: (if resp.Body.isSome then [Event.close] else [])) := by
    simp [doRawRequest, hdo, hs]
  refine ⟨by rw [hraw], ?_, by simp [doRequest, hraw], ?_⟩
  · rw [hraw]
    split <;> simp
  · intro unmarshal
    have hraw2 : doRawRequest { env with Unmarshal := unmarshal } req emptyResponse =
        ((none, some (GoError.text (env.Errorf resp.Status))),
          Event.send req :: (if resp.Body.isSome then [Event.close] else [])) := by
      simp [doRawRequest, hdo, hs]
    simp [doRequest, hraw, hraw2]

/-- A status 200 or 201 with `emptyResponse` set: nil bytes and a nil error. -/
theorem doRawRequest_empty_response (env : Env) (req : Request) (resp : Response)
    (hdo : env.Do req = Except.ok resp) (hs : resp.StatusCode = 200 ∨ resp.StatusCode = 201) :
    (doRawRequest env req true).1 = (none, none) := by
  rcases hs with hs | hs <;> simp [doRawRequest, hdo, hs]

/-- When the server answers and reading the body does not fail, `doRawRequest` returns an error
exactly when the status is neither 200 nor 201, or the body is nil while bytes are expected. -/
theorem doRawRequest_error_iff (env : Env) (req : Request) (emptyResponse : Bool)
    (resp : Response) (hdo : env.Do req = Except.ok resp)
    (hread : ∀ body, resp.Body = some body → body.readErr = none) :
    (doRawRequest env req emptyResponse).1.2 ≠ none ↔
      (resp.StatusCode ≠ 200 ∧ resp.StatusCode ≠ 201) ∨
      (emptyResponse = false ∧ resp.Body = none) := by
  by_cases hs : resp.StatusCode ≠ 200 ∧ resp.StatusCode ≠ 201
  · simp [doRawRequest, hdo, hs]
  · cases emptyResponse with
    | true => simp [doRawRequest, hdo, hs]
    | false =>
      cases hb : resp.Body with
      | none => simp [doRawRequest, hdo, hs, hb]
      | some body => simp [doRawRequest, hdo, hs, hb, hread body hb]

theorem fmtRun_of_no_percent (cs : List Char) (h : '%' ∉ cs) :
    fmtRun FmtState.text cs = cs := by
  induction cs with
  | nil => rfl
  | cons c rest ih =>
    have hc : c ≠ '%' := fun hc => h (by simp [hc])
    have hrest : '%' ∉ rest := fun hr => h (by simp [hr])
    simp [fmtRun, hc, ih hrest]

/-- On a format string without a percent sign `fmt.Errorf` gives the string itself. -/
theorem goErrorf_of_no_percent (s : String) (h : '%' ∉ s.data) : goErrorf s = s := by
  unfold goErrorf
  rw [fmtRun_of_no_percent s.data h]

/-- **C9, at the failing input.** The server answers `500 disk 95%full`.  `doRawRequest` passes
the status text to `fmt.Errorf` as the format string, so the `%f` in it is read as a verb that
lacks its operand: the message of the error is `500 disk 95%!f(MISSING)ull`, not the status text.
The bytes are nil and the body is closed unread, as the claim says. -/
theorem doRawRequest_status_text_as_format :
    busyEnv.Do plainRequest =
      Except.ok { StatusCode := 500, Status := "500 disk 95%full",
                  Body := some { data := "", readErr := none } } ∧
    doRawRequest busyEnv plainRequest false =
      ((none, some (GoError.text "500 disk 95%!f(MISSING)ull")),
        [Event.send plainRequest, Event.close]) ∧
    "500 disk 95%!f(MISSING)ull" ≠ "500 disk 95%full" :=
  ⟨rfl, rfl, by decide⟩

/-! ## The unchecked type assertions of `execute` -/

/-- A decoded page that is a mapping with a non-nil `values` and a `next` that is neither nil
nor a string makes the assertion `nextIn.(string)` of client.go:208 fail. -/
theorem execute_panics_of_next (env : Env) (c : Client) (method text url : String) (fuel : Nat)
    (m : StrMap) (hp : (executePage env c method url text).1 = (Any.map m, none))
    (hnil : (StrMap.get m "next").isNil = false) (hstr : ∀ s, StrMap.get m "next" ≠ Any.string s)
    (hv : (StrMap.get m "values").isNil = false) :
    execute env c method (fuel + 1) url text =
      some (Outcome.panic
        ("interface conversion: interface \x7b\x7d is " ++ (StrMap.get m "next").typeName ++
          ", not string"),
        (executePage env c method url text).2) := by
  rcases hq : executePage env c method url text with ⟨⟨r, e⟩, tr⟩
  rw [hq] at hp
  simp only [Prod.mk.injEq] at hp
  obtain ⟨rfl, rfl⟩ := hp
  cases hn : StrMap.get m "next" with
  | string s => exact absurd hn (hstr s)
  | nil => rw [hn] at hnil; simp [Any.isNil] at hnil
  | bool b => simp [execute, hq, hn, hv, show ∀ a, (Any.bool a).isNil = false from fun _ => rfl]
  | float64 x => simp [execute, hq, hn, hv, show ∀ a, (Any.float64 a).isNil = false from fun _ => rfl]
  | slice xs => simp [execute, hq, hn, hv, show ∀ a, (Any.slice a).isNil = false from fun _ => rfl]
  | map m2 => simp [execute, hq, hn, hv, show ∀ a, (Any.map a).isNil = false from fun _ => rfl]
  | bytes b => simp [execute, hq, hn, hv, show ∀ a, (Any.bytes a).isNil = false from fun _ => rfl]

/-- A decoded page that is a mapping with a non-empty string `next` and a `values` that is
neither nil nor a sequence makes the assertion `valuesIn.([]interface{})` of client.go:210
fail. -/
theorem execute_panics_of_values (env : Env) (c : Client) (method text url : String) (fuel : Nat)
    (m : StrMap) (next : String)
    (hp : (executePage env c method url text).1 = (Any.map m, none))
    (hn : StrMap.get m "next" = Any.string next) (hne : next ≠ "")
    (hnil : (StrMap.get m "values").isNil = false)
    (hslice : ∀ vs, StrMap.get m "values" ≠ Any.slice vs) :
    execute env c method (fuel + 1) url text =
      some (Outcome.panic
        ("interface conversion: interface \x7b\x7d is " ++ (StrMap.get m "values").typeName ++
          ", not []interface \x7b\x7d"),
        (executePage env c method url text).2) := by
  rcases hq : executePage env c method url text with ⟨⟨r, e⟩, tr⟩
  rw [hq] at hp
  simp only [Prod.mk.injEq] at hp
  obtain ⟨rfl, rfl⟩ := hp
  cases hv : StrMap.get m "values" with
  | slice vs => exact absurd hv (hslice vs)
  | nil => rw [hv] at hnil; simp [Any.isNil] at hnil
  | bool b => simp [execute, hq, hn, hv, hne, Any.isNil]
  | float64 x => simp [execute, hq, hn, hv, hne, Any.isNil]
  | string x => simp [execute, hq, hn, hv, hne, Any.isNil]
  | map m2 => simp [execute, hq, hn, hv, hne, Any.isNil]
  | bytes b => simp [execute, hq, hn, hv, hne, Any.isNil]

/-- **C11, at the failing inputs.** Both pages are fetched and decoded without error.  The first
is a mapping whose `next` is the number 2, with a non-nil `values`: the assertion
`nextIn.(string)` of client.go:208 fails and `execute` panics.  The second is a mapping whose
`values` is a mapping, with a non-empty `next`: the assertion `valuesIn.([]interface{})` of
client.go:210 fails and `execute` panics.  In both cases this is so whatever the fuel, and no
result and no error is returned. -/
theorem execute_panics_on_unexpected_shape :
    (executePage oddEnv (demoClient 100) "GET" commitsURL "").1 = (Any.map commitsPage, none) ∧
    (∀ fuel, ∃ tr, execute oddEnv (demoClient 100) "GET" (fuel + 1) commitsURL "" =
      some (Outcome.panic "interface conversion: interface \x7b\x7d is float64, not string",
        tr)) ∧
    (executePage oddEnv (demoClient 100) "GET" pullRequestsURL "").1 =
      (Any.map pullRequestsPage, none) ∧
    (∀ fuel, ∃ tr, execute oddEnv (demoClient 100) "GET" (fuel + 1) pullRequestsURL "" =
      some (Outcome.panic
        "interface conversion: interface \x7b\x7d is map[string]interface \x7b\x7d, not []interface \x7b\x7d",
        tr)) :=
  ⟨rfl,
    fun fuel => ⟨_, execute_panics_of_next oddEnv (demoClient 100) "GET" "" commitsURL fuel
      commitsPage rfl rfl (fun s h => by simp [commitsPage, StrMap.get, List.lookup] at h) rfl⟩,
    rfl,
    fun fuel => ⟨_, execute_panics_of_values oddEnv (demoClient 100) "GET" "" pullRequestsURL fuel
      pullRequestsPage _ rfl rfl (by decide) rfl
      (fun vs h => by simp [pullRequestsPage, StrMap.get, List.lookup] at h)⟩⟩

end Bitbucket
